import Mathlib

/-!
Verification of the TTLV binary codec (`src/ttlv.rs`, `src/util.rs`, `src/lib.rs`).

Byte buffers are modelled as `List Nat` (each entry a `u8` value). Machine-word
reads and writes use explicit big-endian byte arithmetic; signed values are
modelled as `Int` with two's-complement conversion at the buffer boundary.

The `scroll` crate's `cread_with`/`cwrite_with` used by the source assert that
the slice is large enough and abort (panic) otherwise; likewise slice indexing
`&buf[a..b]` with `a > b` or `b > buf.len()` aborts, and `.expect(..)` on a
failed conversion aborts.  These aborts are modelled explicitly by the
`Outcome.panic` result.  A `while` loop that would run forever is modelled by
`Outcome.diverge` (it never actually occurs, as proved below).
-/

set_option autoImplicit false

namespace TTLV

/-- The common error type for all TTLV failures (`enum Error` in `ttlv.rs`). -/
inductive Error where
  | UnsupportedType
  | TypeMismatch
  | ChildNotFound
  | MissingStartByte
  | InsufficientBufferSize
  | CorruptUtf8
deriving DecidableEq, Repr

/-- Result of running a piece of Rust code: a value, a typed `Err`, an abort
(panic, e.g. a failed `scroll` bounds assertion, an out-of-bounds slice or a
failed `.expect`), or divergence of a loop. -/
inductive Outcome (α : Type) where
  | panic
  | diverge
  | err (e : Error)
  | ok (a : α)
deriving DecidableEq, Repr

/-- `padded_len` from `util.rs`: `(len + 7) / 8 * 8`. -/
def padded_len (len : Nat) : Nat := (len + 7) / 8 * 8

/-- Big-endian bytes of `v` (low `8*w` bits), most significant first; length `w`.
This is what `scroll`'s big-endian `IntoCtx` stores for a `w`-byte integer. -/
def beBytes : Nat → Nat → List Nat
  | 0, _ => []
  | w + 1, v => (v / 256 ^ w % 256) :: beBytes w v

/-- Big-endian read of `width` bytes at offset `off`: the interpretation
`scroll`'s big-endian `FromCtx` gives to that byte range. -/
def readBE (buf : List Nat) (off width : Nat) : Nat :=
  ((buf.drop off).take width).foldl (fun acc b => acc * 256 + b) 0

/-- Two's-complement reinterpretation of an unsigned `bits`-bit value. -/
def toSigned (v : Nat) (bits : Nat) : Int :=
  if v < 2 ^ (bits - 1) then (v : Int) else (v : Int) - 2 ^ bits

/-- Bytes stored for a signed `w`-byte integer: two's complement, big endian. -/
def sbeBytes (w : Nat) (x : Int) : List Nat :=
  beBytes w ((x % (2 ^ (8 * w))).toNat)

/-- Overwrite `data.length` bytes of `buf` starting at `off`
(the effect of an in-bounds `scroll` write or `copy_from_slice`). -/
def setBytes (buf : List Nat) (off : Nat) (data : List Nat) : List Nat :=
  buf.take off ++ data ++ buf.drop (off + data.length)

/-- `cread_with` of a `width`-byte integer at `off`: `scroll` asserts the
remaining slice is long enough and panics otherwise. -/
def creadO (buf : List Nat) (off width : Nat) : Outcome Nat :=
  if off + width ≤ buf.length then .ok (readBE buf off width) else .panic

mutual
/-- A TTLV node: `struct Ttlv { tag: u16, value: Value }`. -/
inductive Ttlv where
  | mk (tag : Nat) (value : Value)

/-- `enum Value` from `ttlv.rs` (payloads of string/byte kinds are byte lists). -/
inductive Value where
  | Structure (children : TtlvList)
  | Integer (val : Int)
  | LongInteger (val : Int)
  | BigInteger (val : List Nat)
  | Enumeration (val : Nat)
  | Boolean (val : Bool)
  | TextString (val : List Nat)
  | ByteString (val : List Nat)
  | DateTime (val : Int)
  | Interval (val : Nat)

/-- A `Vec<Ttlv>` of children. -/
inductive TtlvList where
  | nil
  | cons (head : Ttlv) (tail : TtlvList)
end

deriving instance DecidableEq for Ttlv, Value, TtlvList

/-- The raw 16-bit tag of a node (the `tag` field). -/
def Ttlv.tagOf : Ttlv → Nat
  | .mk tag _ => tag

/-- The `value` field of a node. -/
def Ttlv.valOf : Ttlv → Value
  | .mk _ v => v

/-- `enum Type` from `ttlv.rs` (`Structure = 0x01`, the rest sequential). -/
inductive Ty where
  | Structure
  | Integer
  | LongInteger
  | BigInteger
  | Enumeration
  | Boolean
  | TextString
  | ByteString
  | DateTime
  | Interval
deriving DecidableEq, Repr

/-- `Type::from_u8` (derived `FromPrimitive`): codes `1..=10`, else `None`. -/
def Ty.fromU8 (n : Nat) : Option Ty :=
  match n with
  | 1 => some .Structure
  | 2 => some .Integer
  | 3 => some .LongInteger
  | 4 => some .BigInteger
  | 5 => some .Enumeration
  | 6 => some .Boolean
  | 7 => some .TextString
  | 8 => some .ByteString
  | 9 => some .DateTime
  | 10 => some .Interval
  | _ => none

/-- `type_ as u8` for each `Value` kind. -/
def typeCode (v : Value) : Nat :=
  match v with
  | .Structure _ => 1
  | .Integer _ => 2
  | .LongInteger _ => 3
  | .BigInteger _ => 4
  | .Enumeration _ => 5
  | .Boolean _ => 6
  | .TextString _ => 7
  | .ByteString _ => 8
  | .DateTime _ => 9
  | .Interval _ => 10

/-- A UTF-8 continuation byte, `0x80..=0xBF`. -/
def contByte (b : Nat) : Bool := 0x80 ≤ b && b ≤ 0xBF

/-- Model of `core::str::from_utf8` validation (the standard UTF-8 table:
no overlong forms, no surrogates, scalar values at most `U+10FFFF`). -/
def validUtf8 : List Nat → Bool
  | [] => true
  | b :: rest =>
    if b ≤ 0x7F then validUtf8 rest
    else if 0xC2 ≤ b && b ≤ 0xDF then
      match rest with
      | c1 :: r => contByte c1 && validUtf8 r
      | [] => false
    else if b = 0xE0 then
      match rest with
      | c1 :: c2 :: r => (0xA0 ≤ c1 && c1 ≤ 0xBF) && contByte c2 && validUtf8 r
      | _ => false
    else if (0xE1 ≤ b && b ≤ 0xEC) || b = 0xEE || b = 0xEF then
      match rest with
      | c1 :: c2 :: r => contByte c1 && contByte c2 && validUtf8 r
      | _ => false
    else if b = 0xED then
      match rest with
      | c1 :: c2 :: r => (0x80 ≤ c1 && c1 ≤ 0x9F) && contByte c2 && validUtf8 r
      | _ => false
    else if b = 0xF0 then
      match rest with
      | c1 :: c2 :: c3 :: r =>
        (0x90 ≤ c1 && c1 ≤ 0xBF) && contByte c2 && contByte c3 && validUtf8 r
      | _ => false
    else if 0xF1 ≤ b && b ≤ 0xF3 then
      match rest with
      | c1 :: c2 :: c3 :: r => contByte c1 && contByte c2 && contByte c3 && validUtf8 r
      | _ => false
    else if b = 0xF4 then
      match rest with
      | c1 :: c2 :: c3 :: r =>
        (0x80 ≤ c1 && c1 ≤ 0x8F) && contByte c2 && contByte c3 && validUtf8 r
      | _ => false
    else false

/-- `WriteVar::write_var` from `util.rs`: into `self[offset..]`, copy `data`
and zero-fill up to `padded_len(data.len())`; `InsufficientBufferSize` if the
region is too small.  Taking `&mut self[offset..]` panics when
`offset > self.len()`. -/
def write_var (buf : List Nat) (data : List Nat) (offset : Nat) : Outcome (List Nat) :=
  if offset ≤ buf.length then
    let sub := buf.drop offset
    let pl := padded_len data.length
    if sub.length < pl then .err .InsufficientBufferSize
    else .ok (buf.take offset ++ data ++ List.replicate (pl - data.length) 0 ++ sub.drop pl)
  else .panic

/-- `usize` value of an `i32` cast with `as usize` on a 64-bit target
(sign extension). -/
def i32AsUsize (x : Int) : Nat := (x % 2 ^ 64).toNat

/-- `parse_ttlv_len` from `util.rs`: asserts the buffer is exactly 4 bytes
(else panics), reads a big-endian **i32**, casts it `as usize`, and returns
its padded length. -/
def parse_ttlv_len (buf : List Nat) : Outcome Nat :=
  if buf.length = 4 then
    .ok (padded_len (i32AsUsize (toSigned (readBE buf 0 4) 32)))
  else .panic

mutual
/-- `Ttlv::encode` from `ttlv.rs`.  Returns the updated buffer contents and the
number of bytes written.  Mirrors the source: 16-byte minimum check, start
byte at 0, tag at 1, value payload, then type code at 3 and `len as u32`
at 4; result is `8 + padded_len len`. -/
def encode (t : Ttlv) (buf : List Nat) : Outcome (List Nat × Nat) :=
  match t with
  | .mk tag v =>
    if buf.length < 16 then .err .InsufficientBufferSize
    else
      -- offsets 0..3 are in bounds (length ≥ 16), so these writes cannot panic
      let b0 := setBytes buf 0 [0x42]
      let b1 := setBytes b0 1 (beBytes 2 tag)
      match encodeValue v b1 with
      | .ok (b2, tc, len) =>
        let b3 := setBytes b2 3 [tc]
        let b4 := setBytes b3 4 (beBytes 4 len)
        .ok (b4, 8 + padded_len len)
      | .err e => .err e
      | .panic => .panic
      | .diverge => .diverge

/-- The `match &self.value` arm of `Ttlv::encode`: writes the payload into
`buf` (whose offsets 8.. are in bounds, `buf.length ≥ 16`) and yields the
updated buffer, the type code and the declared length. -/
def encodeValue (v : Value) (buf : List Nat) : Outcome (List Nat × Nat × Nat) :=
  match v with
  | .Structure children =>
    match encodeChildren children buf 8 with
    | .ok (b, cursor) => .ok (b, 1, cursor - 8)
    | .err e => .err e
    | .panic => .panic
    | .diverge => .diverge
  | .Integer val =>
    .ok (setBytes (setBytes buf 8 (sbeBytes 4 val)) 12 (beBytes 4 0), 2, 4)
  | .LongInteger val => .ok (setBytes buf 8 (sbeBytes 8 val), 3, 8)
  | .BigInteger _ => .err .UnsupportedType
  | .Enumeration val =>
    .ok (setBytes (setBytes buf 8 (beBytes 4 val)) 12 (beBytes 4 0), 5, 4)
  | .Boolean val => .ok (setBytes buf 8 (beBytes 8 (if val then 1 else 0)), 6, 8)
  | .TextString val =>
    match write_var buf val 8 with
    | .ok b => .ok (b, 7, val.length)
    | .err e => .err e
    | .panic => .panic
    | .diverge => .diverge
  | .ByteString val =>
    match write_var buf val 8 with
    | .ok b => .ok (b, 8, val.length)
    | .err e => .err e
    | .panic => .panic
    | .diverge => .diverge
  | .DateTime val => .ok (setBytes buf 8 (sbeBytes 8 val), 9, 8)
  | .Interval val =>
    .ok (setBytes (setBytes buf 8 (beBytes 4 val)) 12 (beBytes 4 0), 10, 4)

/-- The children loop of `Ttlv::encode`'s `Structure` arm:
`for c in children { cursor += c.encode(&mut buf[cursor..])?; }`.
Taking `&mut buf[cursor..]` panics when `cursor > buf.len()`. -/
def encodeChildren (cs : TtlvList) (buf : List Nat) (cursor : Nat) : Outcome (List Nat × Nat) :=
  match cs with
  | .nil => .ok (buf, cursor)
  | .cons c rest =>
    if cursor ≤ buf.length then
      match encode c (buf.drop cursor) with
      | .ok (sub, n) => encodeChildren rest (buf.take cursor ++ sub) (cursor + n)
      | .err e => .err e
      | .panic => .panic
      | .diverge => .diverge
    else .panic
end

mutual
/-- `Ttlv::decode` from `ttlv.rs`: header checks in source order, then the
per-type payload parse; the fixed-width payload reads go through `creadO`
(whose bounds assertion can genuinely fail). -/
def decode (buf : List Nat) : Outcome (Ttlv × Nat) :=
  if _h8 : buf.length < 8 then .err .InsufficientBufferSize
  else if readBE buf 0 1 ≠ 0x42 then .err .MissingStartByte
  else
    -- header reads at offsets 0..8 are in bounds (length ≥ 8): no panic
    let tag := readBE buf 1 2
    match Ty.fromU8 (readBE buf 3 1) with
    | none => .err .UnsupportedType
    | some ty =>
      let len := readBE buf 4 4
      if _hlen : buf.length < 8 + padded_len len then .err .InsufficientBufferSize
      else
        match ty with
        | .Structure =>
          -- children are parsed from the region buf[8 .. 8+len]
          match decodeChildren ((buf.take (8 + len)).drop 8) 0 with
          | .ok (children, _) => .ok (.mk tag (.Structure children), 8 + padded_len len)
          | .err e => .err e
          | .panic => .panic
          | .diverge => .diverge
        | .Integer =>
          match creadO buf 8 4 with
          | .ok v => .ok (.mk tag (.Integer (toSigned v 32)), 8 + padded_len len)
          | _ => .panic
        | .LongInteger =>
          match creadO buf 8 8 with
          | .ok v => .ok (.mk tag (.LongInteger (toSigned v 64)), 8 + padded_len len)
          | _ => .panic
        | .BigInteger =>
          .ok (.mk tag (.BigInteger ((buf.drop 8).take len)), 8 + padded_len len)
        | .Enumeration =>
          match creadO buf 8 4 with
          | .ok v => .ok (.mk tag (.Enumeration v), 8 + padded_len len)
          | _ => .panic
        | .Boolean =>
          match creadO buf 8 8 with
          | .ok v => .ok (.mk tag (.Boolean (v ≠ 0)), 8 + padded_len len)
          | _ => .panic
        | .TextString =>
          if validUtf8 ((buf.drop 8).take len) then
            .ok (.mk tag (.TextString ((buf.drop 8).take len)), 8 + padded_len len)
          else .err .CorruptUtf8
        | .ByteString =>
          .ok (.mk tag (.ByteString ((buf.drop 8).take len)), 8 + padded_len len)
        | .DateTime =>
          match creadO buf 8 8 with
          | .ok v => .ok (.mk tag (.DateTime (toSigned v 64)), 8 + padded_len len)
          | _ => .panic
        | .Interval =>
          match creadO buf 8 4 with
          | .ok v => .ok (.mk tag (.Interval v), 8 + padded_len len)
          | _ => .panic
termination_by (buf.length, 0)
decreasing_by
  simp_wf
  apply Prod.Lex.left
  have : ((buf.take (8 + len)).drop 8).length ≤ buf.length - 8 := by
    simp [List.length_drop]
    omega
  omega

/-- The children loop of `Ttlv::decode`'s `Structure` arm:
`while let Ok((c, c_len)) = Ttlv::decode(&buf[cursor..8 + len])`, with
`body = buf[8 .. 8+len]` and `k = cursor - 8`.  Re-slicing with a cursor past
the end of the region would panic; a child claiming zero consumed bytes would
make the `while` loop run forever (neither ever happens, as proved below). -/
def decodeChildren (body : List Nat) (k : Nat) : Outcome (TtlvList × Nat) :=
  if _hk : body.length < k then .panic
  else
    match decode (body.drop k) with
    | .err _ => .ok (.nil, k)
    | .ok (c, cLen) =>
      if _hz : cLen = 0 then .diverge
      else
        match decodeChildren body (k + cLen) with
        | .ok (cs, k') => .ok (.cons c cs, k')
        | r => r
    | .panic => .panic
    | .diverge => .diverge
termination_by (body.length, body.length + 1 - k)
decreasing_by
  · simp_wf
    rcases Nat.eq_zero_or_pos k with hk0 | hk0
    · subst hk0
      apply Prod.Lex.right
      omega
    · apply Prod.Lex.left
      simp [List.length_drop]
      omega
  · apply Prod.Lex.right
    omega
end

/-- The blanket `impl<T: FromPrimitive + ToPrimitive + PartialEq> Tag for T`
from `util.rs`: `from_u16` is `FromPrimitive::from_u16(n).expect(..)`, which
aborts (panics) when the conversion yields `None`.  The generic numeric
conversion of the concrete tag type is passed in as `fromPrim`. -/
def tagFromU16 {τ : Type} (fromPrim : Nat → Option τ) (n : Nat) : Outcome τ :=
  match fromPrim n with
  | some t => .ok t
  | none => .panic

/-- `Ttlv::tag::<T>`: converts the raw stored tag through the `Tag` trait. -/
def tagTyped {τ : Type} (fromPrim : Nat → Option τ) (t : Ttlv) : Outcome τ :=
  tagFromU16 fromPrim t.tagOf

/-- `Ttlv::child_iter`: the children when the value is a `Structure`,
`TypeMismatch` otherwise. -/
def child_iter (t : Ttlv) : Outcome TtlvList :=
  match t with
  | .mk _ (.Structure cs) => .ok cs
  | _ => .err .TypeMismatch

/-- The `find` scan inside `Ttlv::path`: walks the children in order and
returns the first child whose tag, converted through the `Tag` trait, equals
`tags[0]`.  The closure indexes `tags[0]` (panics on an empty path once a
child is examined) and converts each scanned child's tag with
`T::from_u16(..).expect(..)` (panics when the conversion fails). -/
def findTag {τ : Type} [DecidableEq τ] (fromPrim : Nat → Option τ) (tags : List τ) :
    TtlvList → Outcome (Option Ttlv)
  | .nil => .ok none
  | .cons c cs =>
    match tags with
    | [] => .panic
    | t0 :: _ =>
      match fromPrim c.tagOf with
      | none => .panic
      | some ct => if ct = t0 then .ok (some c) else findTag fromPrim tags cs

/-- `Ttlv::path` from `ttlv.rs`. -/
def path {τ : Type} [DecidableEq τ] (fromPrim : Nat → Option τ) (t : Ttlv)
    (tags : List τ) : Outcome Ttlv :=
  match child_iter t with
  | .ok cs =>
    match findTag fromPrim tags cs with
    | .ok none => .err .ChildNotFound
    | .ok (some c) =>
      if tags.length = 1 then .ok c
      else
        match tags with
        | [] => .panic
        | _ :: rest => path fromPrim c rest
    | .err e => .err e
    | .panic => .panic
    | .diverge => .diverge
  | .err e => .err e
  | .panic => .panic
  | .diverge => .diverge
termination_by tags.length

/-- `TryFromValue for i32`. -/
def tryFromI32 (v : Value) : Option Int :=
  match v with
  | .Integer val => some val
  | _ => none

/-- `TryFromValue for i64`. -/
def tryFromI64 (v : Value) : Option Int :=
  match v with
  | .LongInteger val => some val
  | _ => none

/-- `TryFromValue for u32`. -/
def tryFromU32 (v : Value) : Option Nat :=
  match v with
  | .Enumeration val => some val
  | _ => none

/-- `TryFromValue for bool`. -/
def tryFromBool (v : Value) : Option Bool :=
  match v with
  | .Boolean val => some val
  | _ => none

/-- `TryFromValue for &str` (the borrowed UTF-8 bytes). -/
def tryFromStr (v : Value) : Option (List Nat) :=
  match v with
  | .TextString val => some val
  | _ => none

/-- `TryFromValue for &[u8]`. -/
def tryFromBytes (v : Value) : Option (List Nat) :=
  match v with
  | .ByteString val => some val
  | _ => none

/-- `Ttlv::value::<T>`: `T::try_from(&self.value).ok_or(Error::TypeMismatch)`,
with the `TryFromValue` impl passed in as `tryFrom`. -/
def valueGet {α : Type} (tryFrom : Value → Option α) (t : Ttlv) : Outcome α :=
  match tryFrom t.valOf with
  | some x => .ok x
  | none => .err .TypeMismatch

mutual
/-- The declared (unpadded) payload length a node encodes with. -/
def declLen : Value → Nat
  | .Structure cs => childrenSize cs
  | .Integer _ => 4
  | .LongInteger _ => 8
  | .BigInteger b => b.length
  | .Enumeration _ => 4
  | .Boolean _ => 8
  | .TextString s => s.length
  | .ByteString s => s.length
  | .DateTime _ => 8
  | .Interval _ => 4

/-- Total encoded size of a child list (sum of the children's total sizes). -/
def childrenSize : TtlvList → Nat
  | .nil => 0
  | .cons c cs => sizeT c + childrenSize cs

/-- Total encoded size of a node: `8 + padded_len (declared length)`. -/
def sizeT : Ttlv → Nat
  | .mk _ v => 8 + padded_len (declLen v)
end

mutual
/-- The padded payload bytes a wellformed node's value encodes to. -/
def payloadBytes : Value → List Nat
  | .Structure cs => childrenBytes cs
  | .Integer x => sbeBytes 4 x ++ beBytes 4 0
  | .LongInteger x => sbeBytes 8 x
  | .BigInteger b => b
  | .Enumeration x => beBytes 4 x ++ beBytes 4 0
  | .Boolean b => beBytes 8 (if b then 1 else 0)
  | .TextString s => s ++ List.replicate (padded_len s.length - s.length) 0
  | .ByteString s => s ++ List.replicate (padded_len s.length - s.length) 0
  | .DateTime x => sbeBytes 8 x
  | .Interval x => beBytes 4 x ++ beBytes 4 0

/-- Concatenated encodings of a child list. -/
def childrenBytes : TtlvList → List Nat
  | .nil => []
  | .cons c cs => encBytes c ++ childrenBytes cs

/-- The full wire encoding of a wellformed node:
start byte, tag, type code, declared length, padded payload. -/
def encBytes : Ttlv → List Nat
  | .mk tag v =>
    0x42 :: beBytes 2 tag ++ typeCode v :: beBytes 4 (declLen v) ++ payloadBytes v
end

mutual
/-- Wellformed value: one of the 9 encodable kinds (no `BigInteger`), with
payloads in the range of the corresponding Rust machine type, string
payloads valid UTF-8, and declared lengths that fit the 32-bit length field. -/
def wfV : Value → Bool
  | .Structure cs => decide (childrenSize cs < 2 ^ 32) && wfL cs
  | .Integer x => decide (-2 ^ 31 ≤ x) && decide (x < 2 ^ 31)
  | .LongInteger x => decide (-2 ^ 63 ≤ x) && decide (x < 2 ^ 63)
  | .BigInteger _ => false
  | .Enumeration x => decide (x < 2 ^ 32)
  | .Boolean _ => true
  | .TextString s =>
    decide (s.length < 2 ^ 32) && s.all (fun b => decide (b < 256)) && validUtf8 s
  | .ByteString s => decide (s.length < 2 ^ 32) && s.all (fun b => decide (b < 256))
  | .DateTime x => decide (-2 ^ 63 ≤ x) && decide (x < 2 ^ 63)
  | .Interval x => decide (x < 2 ^ 32)

/-- Wellformed child list. -/
def wfL : TtlvList → Bool
  | .nil => true
  | .cons c cs => wf c && wfL cs

/-- Wellformed node: 16-bit tag and wellformed value. -/
def wf : Ttlv → Bool
  | .mk tag v => decide (tag < 2 ^ 16) && wfV v
end

/-- The tag enumeration of the repository's own round-trip test (`lib.rs`),
with its derived `FromPrimitive` conversion. -/
inductive TestTag where
  | Request
  | RequestHeader
  | ProtocolVersion
  | RequestBody
deriving DecidableEq, Repr

/-- Derived `FromPrimitive::from_u16` for `TestTag` (discriminants 0..3). -/
def TestTag.fromPrim : Nat → Option TestTag
  | 0 => some .Request
  | 1 => some .RequestHeader
  | 2 => some .ProtocolVersion
  | 3 => some .RequestBody
  | _ => none

/-! ### Basic list and byte lemmas -/

theorem take_append_len {l1 l2 : List Nat} {m : Nat} (h : l1.length = m) :
    (l1 ++ l2).take m = l1 := by
  subst h
  exact List.take_left l1 l2

theorem drop_append_len {l1 l2 : List Nat} {m : Nat} (h : l1.length = m) :
    (l1 ++ l2).drop m = l2 := by
  subst h
  exact List.drop_left l1 l2

theorem take_append_add {l1 l2 : List Nat} {m k : Nat} (h : l1.length = m) :
    (l1 ++ l2).take (m + k) = l1 ++ l2.take k := by
  subst h
  rw [List.take_append]

theorem drop_append_add {l1 l2 : List Nat} {m k : Nat} (h : l1.length = m) :
    (l1 ++ l2).drop (m + k) = l2.drop k := by
  subst h
  rw [List.drop_append]

theorem setBytes_append {pre rest data : List Nat} {off : Nat} (h : pre.length = off) :
    setBytes (pre ++ rest) off data = pre ++ data ++ rest.drop data.length := by
  subst h
  unfold setBytes
  rw [List.take_left, drop_append_add rfl]

theorem setBytes_nil_off (buf data : List Nat) :
    setBytes buf 0 data = data ++ buf.drop data.length := by
  unfold setBytes
  simp

@[simp] theorem beBytes_length (w v : Nat) : (beBytes w v).length = w := by
  induction w generalizing v with
  | zero => rfl
  | succ w ih => simp [beBytes, ih]

@[simp] theorem sbeBytes_length (w : Nat) (x : Int) : (sbeBytes w x).length = w := by
  unfold sbeBytes
  exact beBytes_length w _

theorem padded_len_ge (n : Nat) : n ≤ padded_len n := by
  unfold padded_len
  omega

theorem padded_len_lt (n : Nat) : padded_len n < n + 8 := by
  unfold padded_len
  omega

theorem padded_len_mod (n : Nat) : padded_len n % 8 = 0 := by
  unfold padded_len
  omega

theorem padded_len_of_mod {n : Nat} (h : n % 8 = 0) : padded_len n = n := by
  unfold padded_len
  omega

theorem sizeT_mod (t : Ttlv) : sizeT t % 8 = 0 := by
  match t with
  | .mk tag v =>
    have := padded_len_mod (declLen v)
    simp [sizeT]
    omega

theorem sizeT_ge (t : Ttlv) : 8 ≤ sizeT t := by
  match t with
  | .mk tag v => simp [sizeT]

theorem childrenSize_mod : ∀ (cs : TtlvList), childrenSize cs % 8 = 0
  | .nil => rfl
  | .cons c cs => by
    have h1 := sizeT_mod c
    have h2 := childrenSize_mod cs
    simp [childrenSize]
    omega

/-- The value of a big-endian byte list under `readBE`'s fold. -/
def beVal (data : List Nat) : Nat :=
  data.foldl (fun acc b => acc * 256 + b) 0

theorem beVal_foldl (data : List Nat) (acc : Nat) :
    data.foldl (fun acc b => acc * 256 + b) acc = acc * 256 ^ data.length + beVal data := by
  induction data generalizing acc with
  | nil => simp [beVal]
  | cons b l ih =>
    have h1 : beVal (b :: l) = b * 256 ^ l.length + beVal l := by
      unfold beVal
      simp only [List.foldl_cons]
      have hb : (0 : Nat) * 256 + b = b := by ring
      rw [hb, ih b]
      rfl
    simp only [List.foldl_cons, List.length_cons]
    rw [ih (acc * 256 + b), h1]
    ring

theorem beVal_beBytes (w v : Nat) : beVal (beBytes w v) = v % 256 ^ w := by
  induction w generalizing v with
  | zero => simp [beVal, beBytes, Nat.mod_one]
  | succ w ih =>
    simp only [beBytes, beVal, List.foldl_cons]
    rw [beVal_foldl, beBytes_length, ih]
    have h256 : (256 : Nat) ^ (w + 1) = 256 ^ w * 256 := by ring
    rw [h256, Nat.mod_mul]
    ring

theorem readBE_exact {data rest : List Nat} {w : Nat} (h : data.length = w) :
    readBE (data ++ rest) 0 w = beVal data := by
  subst h
  unfold readBE beVal
  simp [List.take_left]

theorem readBE_beBytes (w v : Nat) (rest : List Nat) :
    readBE (beBytes w v ++ rest) 0 w = v % 256 ^ w := by
  rw [readBE_exact (beBytes_length w v), beVal_beBytes]

/-! ### Wellformedness decompositions and encoding lengths -/

theorem wf_mk {tag : Nat} {v : Value} (h : wf (.mk tag v) = true) :
    tag < 2 ^ 16 ∧ wfV v = true := by
  simp [wf] at h
  exact h

theorem wfL_cons {c : Ttlv} {cs : TtlvList} (h : wfL (.cons c cs) = true) :
    wf c = true ∧ wfL cs = true := by
  simp [wfL] at h
  exact h

theorem wfV_structure {cs : TtlvList} (h : wfV (.Structure cs) = true) :
    childrenSize cs < 2 ^ 32 ∧ wfL cs = true := by
  simp [wfV] at h
  exact h

theorem declLen_lt {v : Value} (h : wfV v = true) : declLen v < 2 ^ 32 := by
  cases v <;> simp [wfV, declLen] at h ⊢ <;> omega

mutual
theorem payloadBytes_length : ∀ (v : Value), wfV v = true →
    (payloadBytes v).length = padded_len (declLen v)
  | .Structure cs, h => by
    obtain ⟨-, hl⟩ := wfV_structure h
    simp only [payloadBytes, declLen]
    rw [childrenBytes_length cs hl, padded_len_of_mod (childrenSize_mod cs)]
  | .Integer _, _ => by simp [payloadBytes, declLen, padded_len]
  | .LongInteger _, _ => by simp [payloadBytes, declLen, padded_len]
  | .BigInteger _, h => by simp [wfV] at h
  | .Enumeration _, _ => by simp [payloadBytes, declLen, padded_len]
  | .Boolean _, _ => by simp [payloadBytes, declLen, padded_len]
  | .TextString s, _ => by
    have := padded_len_ge s.length
    simp [payloadBytes, declLen]
    omega
  | .ByteString s, _ => by
    have := padded_len_ge s.length
    simp [payloadBytes, declLen]
    omega
  | .DateTime _, _ => by simp [payloadBytes, declLen, padded_len]
  | .Interval _, _ => by simp [payloadBytes, declLen, padded_len]

theorem childrenBytes_length : ∀ (cs : TtlvList), wfL cs = true →
    (childrenBytes cs).length = childrenSize cs
  | .nil, _ => rfl
  | .cons c cs, h => by
    obtain ⟨hc, hl⟩ := wfL_cons h
    simp only [childrenBytes, childrenSize, List.length_append]
    rw [encBytes_length c hc, childrenBytes_length cs hl]

theorem encBytes_length : ∀ (t : Ttlv), wf t = true → (encBytes t).length = sizeT t
  | .mk tag v, h => by
    obtain ⟨-, hv⟩ := wf_mk h
    simp only [encBytes, sizeT, List.length_cons, List.length_append, beBytes_length]
    rw [payloadBytes_length v hv]
end

/-- Split off the first 8 bytes of a buffer of length at least 8. -/
theorem exists_heads8 : ∀ (buf : List Nat), 8 ≤ buf.length →
    ∃ a0 a1 a2 a3 a4 a5 a6 a7 r, buf = a0::a1::a2::a3::a4::a5::a6::a7::r
  | a0::a1::a2::a3::a4::a5::a6::a7::r, _ => ⟨a0,a1,a2,a3,a4,a5,a6,a7,r, rfl⟩
  | [], h => by simp at h
  | [_], h => by simp at h
  | [_,_], h => by simp at h
  | [_,_,_], h => by simp at h
  | [_,_,_,_], h => by simp at h
  | [_,_,_,_,_], h => by simp at h
  | [_,_,_,_,_,_], h => by simp at h
  | [_,_,_,_,_,_,_], h => by simp at h

theorem drop8_add (a0 a1 a2 a3 a4 a5 a6 a7 : Nat) (r : List Nat) (k : Nat) :
    (a0::a1::a2::a3::a4::a5::a6::a7::r).drop (8 + k) = r.drop k := by
  have h := @List.drop_append Nat [a0,a1,a2,a3,a4,a5,a6,a7] r k
  simpa using h

/-! ### Encode correctness on wellformed trees -/

theorem encode_min16 {t : Ttlv} {buf : List Nat} (hbuf : sizeT t + 8 ≤ buf.length) :
    ¬ (buf.length < 16) := by
  have := sizeT_ge t
  omega

mutual
theorem encode_ok : ∀ (t : Ttlv) (buf : List Nat), wf t = true → sizeT t + 8 ≤ buf.length →
    encode t buf = .ok (encBytes t ++ buf.drop (sizeT t), sizeT t)
  | .mk tag (.Integer x), buf, hw, hbuf => by
    obtain ⟨a0,a1,a2,a3,a4,a5,a6,a7,r,hb⟩ := exists_heads8 buf (by have := encode_min16 hbuf; omega)
    subst hb
    have h16 := encode_min16 hbuf
    simp only [encode, encodeValue]
    rw [if_neg h16]
    simp [setBytes, beBytes, sbeBytes, encBytes, payloadBytes, typeCode, declLen, sizeT,
      padded_len]
  | .mk tag (.Structure cs), buf, hw, hbuf => by
    obtain ⟨-, hv⟩ := wf_mk hw
    obtain ⟨hcsZ, hcl⟩ := wfV_structure hv
    obtain ⟨a0,a1,a2,a3,a4,a5,a6,a7,r,hb⟩ := exists_heads8 buf (by have := encode_min16 hbuf; omega)
    subst hb
    have h16 := encode_min16 hbuf
    have hsz : sizeT (.mk tag (.Structure cs)) = 8 + childrenSize cs := by
      simp [sizeT, declLen, padded_len_of_mod (childrenSize_mod cs)]
    have hec := encodeChildren_ok cs
      (66 :: (tag / 256 % 256) :: (tag % 256) :: a3::a4::a5::a6::a7::r) 8 hcl
      (by simp; rw [hsz] at hbuf; simp at hbuf; omega)
    simp only [encode, encodeValue]
    rw [if_neg h16]
    simp only [setBytes, beBytes]
    norm_num
    rw [hec]
    simp [setBytes, beBytes, encBytes, payloadBytes, typeCode, declLen, sizeT,
      padded_len_of_mod (childrenSize_mod cs), drop8_add]
  | .mk tag (.LongInteger x), buf, hw, hbuf => by
    obtain ⟨a0,a1,a2,a3,a4,a5,a6,a7,r,hb⟩ := exists_heads8 buf (by have := encode_min16 hbuf; omega)
    subst hb
    have h16 := encode_min16 hbuf
    simp only [encode, encodeValue]
    rw [if_neg h16]
    simp [setBytes, beBytes, sbeBytes, encBytes, payloadBytes, typeCode, declLen, sizeT,
      padded_len]
  | .mk tag (.BigInteger b), buf, hw, hbuf => by
    obtain ⟨-, hv⟩ := wf_mk hw
    simp [wfV] at hv
  | .mk tag (.Enumeration x), buf, hw, hbuf => by
    obtain ⟨a0,a1,a2,a3,a4,a5,a6,a7,r,hb⟩ := exists_heads8 buf (by have := encode_min16 hbuf; omega)
    subst hb
    have h16 := encode_min16 hbuf
    simp only [encode, encodeValue]
    rw [if_neg h16]
    simp [setBytes, beBytes, sbeBytes, encBytes, payloadBytes, typeCode, declLen, sizeT,
      padded_len]
  | .mk tag (.Boolean bv), buf, hw, hbuf => by
    obtain ⟨a0,a1,a2,a3,a4,a5,a6,a7,r,hb⟩ := exists_heads8 buf (by have := encode_min16 hbuf; omega)
    subst hb
    have h16 := encode_min16 hbuf
    simp only [encode, encodeValue]
    rw [if_neg h16]
    simp [setBytes, beBytes, sbeBytes, encBytes, payloadBytes, typeCode, declLen, sizeT,
      padded_len]
  | .mk tag (.TextString s), buf, hw, hbuf => by
    obtain ⟨a0,a1,a2,a3,a4,a5,a6,a7,r,hb⟩ := exists_heads8 buf (by have := encode_min16 hbuf; omega)
    subst hb
    have h16 := encode_min16 hbuf
    have hr : ¬ (r.length < padded_len s.length) := by
      rw [show sizeT (.mk tag (.TextString s)) = 8 + padded_len s.length from rfl] at hbuf
      simp at hbuf
      omega
    simp only [encode, encodeValue, write_var]
    rw [if_neg h16]
    simp only [setBytes, beBytes]
    norm_num
    rw [if_neg hr]
    simp [setBytes, beBytes, encBytes, payloadBytes, typeCode, declLen, sizeT, drop8_add]
  | .mk tag (.ByteString s), buf, hw, hbuf => by
    obtain ⟨a0,a1,a2,a3,a4,a5,a6,a7,r,hb⟩ := exists_heads8 buf (by have := encode_min16 hbuf; omega)
    subst hb
    have h16 := encode_min16 hbuf
    have hr : ¬ (r.length < padded_len s.length) := by
      rw [show sizeT (.mk tag (.ByteString s)) = 8 + padded_len s.length from rfl] at hbuf
      simp at hbuf
      omega
    simp only [encode, encodeValue, write_var]
    rw [if_neg h16]
    simp only [setBytes, beBytes]
    norm_num
    rw [if_neg hr]
    simp [setBytes, beBytes, encBytes, payloadBytes, typeCode, declLen, sizeT, drop8_add]
  | .mk tag (.DateTime x), buf, hw, hbuf => by
    obtain ⟨a0,a1,a2,a3,a4,a5,a6,a7,r,hb⟩ := exists_heads8 buf (by have := encode_min16 hbuf; omega)
    subst hb
    have h16 := encode_min16 hbuf
    simp only [encode, encodeValue]
    rw [if_neg h16]
    simp [setBytes, beBytes, sbeBytes, encBytes, payloadBytes, typeCode, declLen, sizeT,
      padded_len]
  | .mk tag (.Interval x), buf, hw, hbuf => by
    obtain ⟨a0,a1,a2,a3,a4,a5,a6,a7,r,hb⟩ := exists_heads8 buf (by have := encode_min16 hbuf; omega)
    subst hb
    have h16 := encode_min16 hbuf
    simp only [encode, encodeValue]
    rw [if_neg h16]
    simp [setBytes, beBytes, sbeBytes, encBytes, payloadBytes, typeCode, declLen, sizeT,
      padded_len]

theorem encodeChildren_ok : ∀ (cs : TtlvList) (B : List Nat) (k : Nat), wfL cs = true →
    k + childrenSize cs + 8 ≤ B.length →
    encodeChildren cs B k =
      .ok (B.take k ++ childrenBytes cs ++ B.drop (k + childrenSize cs), k + childrenSize cs)
  | .nil, B, k, _, hlen => by
    simp [encodeChildren, childrenBytes, childrenSize]
  | .cons c cs, B, k, hw, hlen => by
    obtain ⟨hc, hcs⟩ := wfL_cons hw
    have hsz := sizeT_ge c
    have hszc : childrenSize (.cons c cs) = sizeT c + childrenSize cs := rfl
    rw [hszc] at hlen
    have hkB : k ≤ B.length := by omega
    have hrec := encode_ok c (B.drop k) hc (by simp [List.length_drop]; omega)
    have hlenc : (encBytes c).length = sizeT c := encBytes_length c hc
    have hdd : (B.drop k).drop (sizeT c) = B.drop (k + sizeT c) := List.drop_drop _ _ _
    rw [hdd] at hrec
    have hrec2 := encodeChildren_ok cs (B.take k ++ (encBytes c ++ B.drop (k + sizeT c)))
      (k + sizeT c) hcs
      (by simp [List.length_take, List.length_drop, hlenc]; omega)
    simp only [encodeChildren]
    rw [if_pos hkB]
    have htk : (B.take k ++ (encBytes c ++ B.drop (k + sizeT c))).take (k + sizeT c) =
        B.take k ++ encBytes c := by
      rw [← List.append_assoc]
      exact take_append_len (by simp [List.length_take, hlenc]; omega)
    have hdr : ∀ (j : Nat), (B.take k ++ (encBytes c ++ B.drop (k + sizeT c))).drop (k + sizeT c + j) =
        B.drop (k + sizeT c + j) := by
      intro j
      rw [← List.append_assoc]
      rw [show k + sizeT c + j = (B.take k ++ encBytes c).length + j by
        simp [List.length_take, hlenc]; omega]
      rw [List.drop_append]
      rw [List.drop_drop]
      congr 1
      simp [List.length_take, hlenc]
      omega
    simp only [hrec]
    rw [hrec2, htk, hdr (childrenSize cs)]
    simp only [childrenBytes, childrenSize]
    rw [show k + sizeT c + childrenSize cs = k + (sizeT c + childrenSize cs) from by omega]
    simp [List.append_assoc]
end

/-! ### Decode inverts encode on wellformed trees -/

theorem wfV_integer {x : Int} (h : wfV (.Integer x) = true) :
    -2 ^ 31 ≤ x ∧ x < 2 ^ 31 := by
  simp [wfV] at h
  exact h

theorem wfV_long {x : Int} (h : wfV (.LongInteger x) = true) :
    -2 ^ 63 ≤ x ∧ x < 2 ^ 63 := by
  simp [wfV] at h
  exact h

theorem wfV_datetime {x : Int} (h : wfV (.DateTime x) = true) :
    -2 ^ 63 ≤ x ∧ x < 2 ^ 63 := by
  simp [wfV] at h
  exact h

theorem wfV_enum {x : Nat} (h : wfV (.Enumeration x) = true) : x < 2 ^ 32 := by
  simp [wfV] at h
  exact h

theorem wfV_interval {x : Nat} (h : wfV (.Interval x) = true) : x < 2 ^ 32 := by
  simp [wfV] at h
  exact h

theorem wfV_text {s : List Nat} (h : wfV (.TextString s) = true) :
    s.length < 2 ^ 32 ∧ validUtf8 s = true := by
  simp [wfV] at h
  obtain ⟨⟨h1, -⟩, h2⟩ := h
  exact ⟨by omega, h2⟩

theorem wfV_byte {s : List Nat} (h : wfV (.ByteString s) = true) : s.length < 2 ^ 32 := by
  simp [wfV] at h
  obtain ⟨h1, -⟩ := h
  omega

theorem take8_add (a0 a1 a2 a3 a4 a5 a6 a7 : Nat) (r : List Nat) (k : Nat) :
    (a0::a1::a2::a3::a4::a5::a6::a7::r).take (8 + k) = a0::a1::a2::a3::a4::a5::a6::a7::r.take k := by
  have h := @List.take_append Nat [a0,a1,a2,a3,a4,a5,a6,a7] r k
  simpa using h

set_option maxRecDepth 8000 in
set_option maxHeartbeats 4000000 in
mutual
theorem decode_encBytes : ∀ (t : Ttlv) (rest : List Nat), wf t = true →
    decode (encBytes t ++ rest) = .ok (t, sizeT t)
  | .mk tag (.Structure cs), rest, hw => by
    obtain ⟨htag, hv⟩ := wf_mk hw
    obtain ⟨hcsZ, hcl⟩ := wfV_structure hv
    have hcb : (childrenBytes cs).length = childrenSize cs := childrenBytes_length cs hcl
    have hbuf : encBytes (.mk tag (.Structure cs)) ++ rest =
        66 :: (tag / 256 % 256) :: (tag % 256) :: 1 ::
        (childrenSize cs / 16777216 % 256) :: (childrenSize cs / 65536 % 256) ::
        (childrenSize cs / 256 % 256) :: (childrenSize cs % 256) ::
        (childrenBytes cs ++ rest) := by
      norm_num [encBytes, beBytes, payloadBytes, typeCode, declLen]
    rw [hbuf]
    have htg : tag / 256 % 256 * 256 + tag % 256 = tag := by omega
    have hln : ((childrenSize cs / 16777216 % 256 * 256 + childrenSize cs / 65536 % 256) * 256 +
        childrenSize cs / 256 % 256) * 256 + childrenSize cs % 256 = childrenSize cs := by omega
    have hpc : padded_len (childrenSize cs) = childrenSize cs :=
      padded_len_of_mod (childrenSize_mod cs)
    have hregion : ((childrenBytes cs ++ rest).take (childrenSize cs)) = childrenBytes cs :=
      take_append_len hcb
    have hdc := decodeChildren_encBytes cs ([] : List Nat) hcl
    simp only [List.nil_append, List.length_nil, Nat.zero_add] at hdc
    simp [decode, readBE, Ty.fromU8, htg, hln, take8_add, hregion, hdc, hpc, sizeT, declLen]
    rw [if_neg (by omega), if_neg (by omega)]
  | .mk tag (.Integer x), rest, hw => by
    obtain ⟨htag, hv⟩ := wf_mk hw
    obtain ⟨hx1, hx2⟩ := wfV_integer hv
    have hbuf : encBytes (.mk tag (.Integer x)) ++ rest =
        66 :: (tag / 256 % 256) :: (tag % 256) :: 2 ::
        0 :: 0 :: 0 :: 4 ::
        ((x % 4294967296).toNat / 16777216 % 256) :: ((x % 4294967296).toNat / 65536 % 256) ::
        ((x % 4294967296).toNat / 256 % 256) :: ((x % 4294967296).toNat % 256) ::
        0 :: 0 :: 0 :: 0 :: rest := by
      norm_num [encBytes, beBytes, sbeBytes, payloadBytes, typeCode, declLen]
    rw [hbuf]
    have htg : tag / 256 % 256 * 256 + tag % 256 = tag := by omega
    have hts : toSigned ((x % 4294967296).toNat) 32 = x := by
      unfold toSigned
      split <;> omega
    have hcread : creadO (66 :: (tag / 256 % 256) :: (tag % 256) :: 2 ::
        0 :: 0 :: 0 :: 4 ::
        ((x % 4294967296).toNat / 16777216 % 256) :: ((x % 4294967296).toNat / 65536 % 256) ::
        ((x % 4294967296).toNat / 256 % 256) :: ((x % 4294967296).toNat % 256) ::
        0 :: 0 :: 0 :: 0 :: rest) 8 4 = .ok ((x % 4294967296).toNat) := by
      unfold creadO
      rw [if_pos (by simp)]
      simp [readBE]
      omega
    simp [decode, readBE, Ty.fromU8, padded_len, hcread, hts, htg]
    rw [if_neg (by omega), if_neg (by omega)]
    simp [sizeT, declLen, padded_len]
  | .mk tag (.LongInteger x), rest, hw => by
    obtain ⟨htag, hv⟩ := wf_mk hw
    obtain ⟨hx1, hx2⟩ := wfV_long hv
    have hbuf : encBytes (.mk tag (.LongInteger x)) ++ rest =
        66 :: (tag / 256 % 256) :: (tag % 256) :: 3 ::
        0 :: 0 :: 0 :: 8 ::
        ((x % 18446744073709551616).toNat / 72057594037927936 % 256) ::
        ((x % 18446744073709551616).toNat / 281474976710656 % 256) ::
        ((x % 18446744073709551616).toNat / 1099511627776 % 256) ::
        ((x % 18446744073709551616).toNat / 4294967296 % 256) ::
        ((x % 18446744073709551616).toNat / 16777216 % 256) ::
        ((x % 18446744073709551616).toNat / 65536 % 256) ::
        ((x % 18446744073709551616).toNat / 256 % 256) ::
        ((x % 18446744073709551616).toNat % 256) :: rest := by
      norm_num [encBytes, beBytes, sbeBytes, payloadBytes, typeCode, declLen]
    rw [hbuf]
    have htg : tag / 256 % 256 * 256 + tag % 256 = tag := by omega
    have hts : toSigned ((x % 18446744073709551616).toNat) 64 = x := by
      unfold toSigned
      split <;> omega
    have hcread : creadO (66 :: (tag / 256 % 256) :: (tag % 256) :: 3 ::
        0 :: 0 :: 0 :: 8 ::
        ((x % 18446744073709551616).toNat / 72057594037927936 % 256) ::
        ((x % 18446744073709551616).toNat / 281474976710656 % 256) ::
        ((x % 18446744073709551616).toNat / 1099511627776 % 256) ::
        ((x % 18446744073709551616).toNat / 4294967296 % 256) ::
        ((x % 18446744073709551616).toNat / 16777216 % 256) ::
        ((x % 18446744073709551616).toNat / 65536 % 256) ::
        ((x % 18446744073709551616).toNat / 256 % 256) ::
        ((x % 18446744073709551616).toNat % 256) :: rest) 8 8 =
        .ok ((x % 18446744073709551616).toNat) := by
      unfold creadO
      rw [if_pos (by simp)]
      simp [readBE]
      omega
    simp [decode, readBE, Ty.fromU8, padded_len, hcread, hts, htg]
    rw [if_neg (by omega), if_neg (by omega)]
    simp [sizeT, declLen, padded_len]
  | .mk tag (.BigInteger b), rest, hw => by
    obtain ⟨-, hv⟩ := wf_mk hw
    simp [wfV] at hv
  | .mk tag (.Enumeration x), rest, hw => by
    obtain ⟨htag, hv⟩ := wf_mk hw
    have hx := wfV_enum hv
    have hbuf : encBytes (.mk tag (.Enumeration x)) ++ rest =
        66 :: (tag / 256 % 256) :: (tag % 256) :: 5 ::
        0 :: 0 :: 0 :: 4 ::
        (x / 16777216 % 256) :: (x / 65536 % 256) :: (x / 256 % 256) :: (x % 256) ::
        0 :: 0 :: 0 :: 0 :: rest := by
      norm_num [encBytes, beBytes, payloadBytes, typeCode, declLen]
    rw [hbuf]
    have htg : tag / 256 % 256 * 256 + tag % 256 = tag := by omega
    have hcread : creadO (66 :: (tag / 256 % 256) :: (tag % 256) :: 5 ::
        0 :: 0 :: 0 :: 4 ::
        (x / 16777216 % 256) :: (x / 65536 % 256) :: (x / 256 % 256) :: (x % 256) ::
        0 :: 0 :: 0 :: 0 :: rest) 8 4 = .ok x := by
      unfold creadO
      rw [if_pos (by simp)]
      simp [readBE]
      omega
    simp [decode, readBE, Ty.fromU8, padded_len, hcread, htg]
    rw [if_neg (by omega), if_neg (by omega)]
    simp [sizeT, declLen, padded_len]
  | .mk tag (.Boolean bv), rest, hw => by
    obtain ⟨htag, hv⟩ := wf_mk hw
    have htg : tag / 256 % 256 * 256 + tag % 256 = tag := by omega
    cases bv with
    | true =>
      have hbuf : encBytes (.mk tag (.Boolean true)) ++ rest =
          66 :: (tag / 256 % 256) :: (tag % 256) :: 6 ::
          0 :: 0 :: 0 :: 8 ::
          0 :: 0 :: 0 :: 0 :: 0 :: 0 :: 0 :: 1 :: rest := by
        norm_num [encBytes, beBytes, payloadBytes, typeCode, declLen]
      rw [hbuf]
      have hcread : creadO (66 :: (tag / 256 % 256) :: (tag % 256) :: 6 ::
          0 :: 0 :: 0 :: 8 ::
          0 :: 0 :: 0 :: 0 :: 0 :: 0 :: 0 :: 1 :: rest) 8 8 = .ok 1 := by
        unfold creadO
        rw [if_pos (by simp)]
        simp [readBE]
      simp [decode, readBE, Ty.fromU8, padded_len, hcread, htg]
      rw [if_neg (by omega), if_neg (by omega)]
      simp [sizeT, declLen, padded_len]
    | false =>
      have hbuf : encBytes (.mk tag (.Boolean false)) ++ rest =
          66 :: (tag / 256 % 256) :: (tag % 256) :: 6 ::
          0 :: 0 :: 0 :: 8 ::
          0 :: 0 :: 0 :: 0 :: 0 :: 0 :: 0 :: 0 :: rest := by
        norm_num [encBytes, beBytes, payloadBytes, typeCode, declLen]
      rw [hbuf]
      have hcread : creadO (66 :: (tag / 256 % 256) :: (tag % 256) :: 6 ::
          0 :: 0 :: 0 :: 8 ::
          0 :: 0 :: 0 :: 0 :: 0 :: 0 :: 0 :: 0 :: rest) 8 8 = .ok 0 := by
        unfold creadO
        rw [if_pos (by simp)]
        simp [readBE]
      simp [decode, readBE, Ty.fromU8, padded_len, hcread, htg]
      rw [if_neg (by omega), if_neg (by omega)]
      simp [sizeT, declLen, padded_len]
  | .mk tag (.TextString s), rest, hw => by
    obtain ⟨htag, hv⟩ := wf_mk hw
    obtain ⟨hsl, hvu⟩ := wfV_text hv
    have hp1 := padded_len_ge s.length
    have hp2 := padded_len_lt s.length
    have hbuf : encBytes (.mk tag (.TextString s)) ++ rest =
        66 :: (tag / 256 % 256) :: (tag % 256) :: 7 ::
        (s.length / 16777216 % 256) :: (s.length / 65536 % 256) ::
        (s.length / 256 % 256) :: (s.length % 256) ::
        (s ++ (List.replicate (padded_len s.length - s.length) 0 ++ rest)) := by
      norm_num [encBytes, beBytes, payloadBytes, typeCode, declLen]
    rw [hbuf]
    have htg : tag / 256 % 256 * 256 + tag % 256 = tag := by omega
    have hln : ((s.length / 16777216 % 256 * 256 + s.length / 65536 % 256) * 256 +
        s.length / 256 % 256) * 256 + s.length % 256 = s.length := by omega
    have htake : (s ++ (List.replicate (padded_len s.length - s.length) 0 ++ rest)).take s.length
        = s := List.take_left s _
    simp [decode, readBE, Ty.fromU8, htg, hln, htake, hvu, sizeT, declLen]
    rw [if_neg (by omega), if_neg (by omega)]
  | .mk tag (.ByteString s), rest, hw => by
    obtain ⟨htag, hv⟩ := wf_mk hw
    have hsl := wfV_byte hv
    have hp1 := padded_len_ge s.length
    have hp2 := padded_len_lt s.length
    have hbuf : encBytes (.mk tag (.ByteString s)) ++ rest =
        66 :: (tag / 256 % 256) :: (tag % 256) :: 8 ::
        (s.length / 16777216 % 256) :: (s.length / 65536 % 256) ::
        (s.length / 256 % 256) :: (s.length % 256) ::
        (s ++ (List.replicate (padded_len s.length - s.length) 0 ++ rest)) := by
      norm_num [encBytes, beBytes, payloadBytes, typeCode, declLen]
    rw [hbuf]
    have htg : tag / 256 % 256 * 256 + tag % 256 = tag := by omega
    have hln : ((s.length / 16777216 % 256 * 256 + s.length / 65536 % 256) * 256 +
        s.length / 256 % 256) * 256 + s.length % 256 = s.length := by omega
    have htake : (s ++ (List.replicate (padded_len s.length - s.length) 0 ++ rest)).take s.length
        = s := List.take_left s _
    simp [decode, readBE, Ty.fromU8, htg, hln, htake, sizeT, declLen]
    rw [if_neg (by omega), if_neg (by omega)]
  | .mk tag (.DateTime x), rest, hw => by
    obtain ⟨htag, hv⟩ := wf_mk hw
    obtain ⟨hx1, hx2⟩ := wfV_datetime hv
    have hbuf : encBytes (.mk tag (.DateTime x)) ++ rest =
        66 :: (tag / 256 % 256) :: (tag % 256) :: 9 ::
        0 :: 0 :: 0 :: 8 ::
        ((x % 18446744073709551616).toNat / 72057594037927936 % 256) ::
        ((x % 18446744073709551616).toNat / 281474976710656 % 256) ::
        ((x % 18446744073709551616).toNat / 1099511627776 % 256) ::
        ((x % 18446744073709551616).toNat / 4294967296 % 256) ::
        ((x % 18446744073709551616).toNat / 16777216 % 256) ::
        ((x % 18446744073709551616).toNat / 65536 % 256) ::
        ((x % 18446744073709551616).toNat / 256 % 256) ::
        ((x % 18446744073709551616).toNat % 256) :: rest := by
      norm_num [encBytes, beBytes, sbeBytes, payloadBytes, typeCode, declLen]
    rw [hbuf]
    have htg : tag / 256 % 256 * 256 + tag % 256 = tag := by omega
    have hts : toSigned ((x % 18446744073709551616).toNat) 64 = x := by
      unfold toSigned
      split <;> omega
    have hcread : creadO (66 :: (tag / 256 % 256) :: (tag % 256) :: 9 ::
        0 :: 0 :: 0 :: 8 ::
        ((x % 18446744073709551616).toNat / 72057594037927936 % 256) ::
        ((x % 18446744073709551616).toNat / 281474976710656 % 256) ::
        ((x % 18446744073709551616).toNat / 1099511627776 % 256) ::
        ((x % 18446744073709551616).toNat / 4294967296 % 256) ::
        ((x % 18446744073709551616).toNat / 16777216 % 256) ::
        ((x % 18446744073709551616).toNat / 65536 % 256) ::
        ((x % 18446744073709551616).toNat / 256 % 256) ::
        ((x % 18446744073709551616).toNat % 256) :: rest) 8 8 =
        .ok ((x % 18446744073709551616).toNat) := by
      unfold creadO
      rw [if_pos (by simp)]
      simp [readBE]
      omega
    simp [decode, readBE, Ty.fromU8, padded_len, hcread, hts, htg]
    rw [if_neg (by omega), if_neg (by omega)]
    simp [sizeT, declLen, padded_len]
  | .mk tag (.Interval x), rest, hw => by
    obtain ⟨htag, hv⟩ := wf_mk hw
    have hx := wfV_interval hv
    have hbuf : encBytes (.mk tag (.Interval x)) ++ rest =
        66 :: (tag / 256 % 256) :: (tag % 256) :: 10 ::
        0 :: 0 :: 0 :: 4 ::
        (x / 16777216 % 256) :: (x / 65536 % 256) :: (x / 256 % 256) :: (x % 256) ::
        0 :: 0 :: 0 :: 0 :: rest := by
      norm_num [encBytes, beBytes, payloadBytes, typeCode, declLen]
    rw [hbuf]
    have htg : tag / 256 % 256 * 256 + tag % 256 = tag := by omega
    have hcread : creadO (66 :: (tag / 256 % 256) :: (tag % 256) :: 10 ::
        0 :: 0 :: 0 :: 4 ::
        (x / 16777216 % 256) :: (x / 65536 % 256) :: (x / 256 % 256) :: (x % 256) ::
        0 :: 0 :: 0 :: 0 :: rest) 8 4 = .ok x := by
      unfold creadO
      rw [if_pos (by simp)]
      simp [readBE]
      omega
    simp [decode, readBE, Ty.fromU8, padded_len, hcread, htg]
    rw [if_neg (by omega), if_neg (by omega)]
    simp [sizeT, declLen, padded_len]

theorem decodeChildren_encBytes : ∀ (cs : TtlvList) (pre : List Nat), wfL cs = true →
    decodeChildren (pre ++ childrenBytes cs) pre.length =
      .ok (cs, pre.length + childrenSize cs)
  | .nil, pre, _ => by
    simp [decodeChildren, childrenBytes, childrenSize, decode, List.drop_length]
  | .cons c cs, pre, hw => by
    obtain ⟨hc, hcs⟩ := wfL_cons hw
    have hszc := sizeT_ge c
    have hnz : ¬ (sizeT c = 0) := by omega
    have hlc : (encBytes c).length = sizeT c := encBytes_length c hc
    have hdec := decode_encBytes c (childrenBytes cs) hc
    have hdrop : (pre ++ (encBytes c ++ childrenBytes cs)).drop pre.length =
        encBytes c ++ childrenBytes cs := List.drop_left _ _
    have hguard : ¬ ((pre ++ (encBytes c ++ childrenBytes cs)).length < pre.length) := by
      simp
    have hrec := decodeChildren_encBytes cs (pre ++ encBytes c) hcs
    rw [List.append_assoc] at hrec
    simp only [List.length_append, hlc] at hrec
    simp only [childrenBytes]
    simp [decodeChildren, hguard, hdrop, hdec, hnz, hrec, childrenSize]
    omega
end

/-! ### Size inversion: every successful encode or decode reports the padded size -/

mutual
theorem encode_size : ∀ (t : Ttlv) (buf p : List Nat) (n : Nat),
    encode t buf = .ok (p, n) → n = sizeT t
  | .mk tag v, buf, p, n, h => by
    simp only [encode] at h
    by_cases h16 : buf.length < 16
    · rw [if_pos h16] at h
      simp at h
    · rw [if_neg h16] at h
      cases hev : encodeValue v (setBytes (setBytes buf 0 [66]) 1 (beBytes 2 tag)) with
      | ok triple =>
        obtain ⟨b2, tc, len⟩ := triple
        rw [hev] at h
        simp at h
        have hl := encodeValue_size v _ _ _ _ hev
        simp [sizeT, ← hl, h.2]
      | err e => rw [hev] at h; simp at h
      | panic => rw [hev] at h; simp at h
      | diverge => rw [hev] at h; simp at h

theorem encodeValue_size : ∀ (v : Value) (B b : List Nat) (tc len : Nat),
    encodeValue v B = .ok (b, tc, len) → len = declLen v
  | .Structure cs, B, b, tc, len, h => by
    simp only [encodeValue] at h
    cases hec : encodeChildren cs B 8 with
    | ok pr =>
      obtain ⟨b2, cursor⟩ := pr
      rw [hec] at h
      simp at h
      have := encodeChildren_size cs B 8 _ _ hec
      simp only [declLen]
      omega
    | err e => rw [hec] at h; simp at h
    | panic => rw [hec] at h; simp at h
    | diverge => rw [hec] at h; simp at h
  | .Integer x, B, b, tc, len, h => by simp [encodeValue, declLen] at h ⊢; omega
  | .LongInteger x, B, b, tc, len, h => by simp [encodeValue, declLen] at h ⊢; omega
  | .BigInteger x, B, b, tc, len, h => by simp [encodeValue] at h
  | .Enumeration x, B, b, tc, len, h => by simp [encodeValue, declLen] at h ⊢; omega
  | .Boolean x, B, b, tc, len, h => by simp [encodeValue, declLen] at h ⊢; omega
  | .TextString x, B, b, tc, len, h => by
    simp only [encodeValue] at h
    cases hwv : write_var B x 8 with
    | ok b2 => rw [hwv] at h; simp [declLen] at h ⊢; omega
    | err e => rw [hwv] at h; simp at h
    | panic => rw [hwv] at h; simp at h
    | diverge => rw [hwv] at h; simp at h
  | .ByteString x, B, b, tc, len, h => by
    simp only [encodeValue] at h
    cases hwv : write_var B x 8 with
    | ok b2 => rw [hwv] at h; simp [declLen] at h ⊢; omega
    | err e => rw [hwv] at h; simp at h
    | panic => rw [hwv] at h; simp at h
    | diverge => rw [hwv] at h; simp at h
  | .DateTime x, B, b, tc, len, h => by simp [encodeValue, declLen] at h ⊢; omega
  | .Interval x, B, b, tc, len, h => by simp [encodeValue, declLen] at h ⊢; omega

theorem encodeChildren_size : ∀ (cs : TtlvList) (B : List Nat) (k : Nat) (b : List Nat)
    (cur : Nat), encodeChildren cs B k = .ok (b, cur) → cur = k + childrenSize cs
  | .nil, B, k, b, cur, h => by
    simp [encodeChildren, childrenSize] at h ⊢
    omega
  | .cons c cs, B, k, b, cur, h => by
    simp only [encodeChildren] at h
    by_cases hk : k ≤ B.length
    · rw [if_pos hk] at h
      cases hec : encode c (B.drop k) with
      | ok pr =>
        obtain ⟨sub, nn⟩ := pr
        rw [hec] at h
        replace h : encodeChildren cs (List.take k B ++ sub) (k + nn) = .ok (b, cur) := h
        have h1 := encode_size c _ _ _ hec
        have h2 := encodeChildren_size cs _ _ _ _ h
        simp only [childrenSize]
        omega
      | err e => rw [hec] at h; simp at h
      | panic => rw [hec] at h; simp at h
      | diverge => rw [hec] at h; simp at h
    · rw [if_neg hk] at h
      simp at h
end

/-! ### Decode inversion and error contract -/

theorem decode_short (buf : List Nat) (h : buf.length < 8) :
    decode buf = .err .InsufficientBufferSize := by
  unfold decode
  rw [dif_pos h]

theorem decode_badstart (buf : List Nat) (h8 : ¬ buf.length < 8)
    (hst : readBE buf 0 1 ≠ 66) : decode buf = .err .MissingStartByte := by
  unfold decode
  rw [dif_neg h8, if_pos hst]

theorem fromU8_none_iff (n : Nat) : Ty.fromU8 n = none ↔ (n < 1 ∨ 10 < n) := by
  unfold Ty.fromU8
  split <;> simp_all
  omega

theorem decode_badtype (buf : List Nat) (h8 : ¬ buf.length < 8)
    (hst : readBE buf 0 1 = 66) (hty : Ty.fromU8 (readBE buf 3 1) = none) :
    decode buf = .err .UnsupportedType := by
  unfold decode
  rw [dif_neg h8, if_neg (by simp [hst])]
  simp only [hty]

theorem decode_insufficient (buf : List Nat) (ty : Ty) (h8 : ¬ buf.length < 8)
    (hst : readBE buf 0 1 = 66) (hty : Ty.fromU8 (readBE buf 3 1) = some ty)
    (hpl : buf.length < 8 + padded_len (readBE buf 4 4)) :
    decode buf = .err .InsufficientBufferSize := by
  unfold decode
  rw [dif_neg h8, if_neg (by simp [hst])]
  simp only [hty]
  rw [dif_pos hpl]

theorem decode_text_corrupt (buf : List Nat) (h8 : ¬ buf.length < 8)
    (hst : readBE buf 0 1 = 66) (hty : readBE buf 3 1 = 7)
    (hpl : ¬ buf.length < 8 + padded_len (readBE buf 4 4))
    (hvu : validUtf8 ((buf.drop 8).take (readBE buf 4 4)) = false) :
    decode buf = .err .CorruptUtf8 := by
  unfold decode
  rw [dif_neg h8, if_neg (by simp [hst])]
  simp only [hty, Ty.fromU8]
  rw [dif_neg hpl, if_neg (by simp [hvu])]

theorem decode_text_ok (buf : List Nat) (h8 : ¬ buf.length < 8)
    (hst : readBE buf 0 1 = 66) (hty : readBE buf 3 1 = 7)
    (hpl : ¬ buf.length < 8 + padded_len (readBE buf 4 4))
    (hvu : validUtf8 ((buf.drop 8).take (readBE buf 4 4)) = true) :
    decode buf = .ok (.mk (readBE buf 1 2) (.TextString ((buf.drop 8).take (readBE buf 4 4))),
      8 + padded_len (readBE buf 4 4)) := by
  unfold decode
  rw [dif_neg h8, if_neg (by simp [hst])]
  simp only [hty, Ty.fromU8]
  rw [dif_neg hpl, if_pos (by simp [hvu])]

theorem decode_bytestring_raw (buf : List Nat) (h8 : ¬ buf.length < 8)
    (hst : readBE buf 0 1 = 66) (hty : readBE buf 3 1 = 8)
    (hpl : ¬ buf.length < 8 + padded_len (readBE buf 4 4)) :
    decode buf = .ok (.mk (readBE buf 1 2) (.ByteString ((buf.drop 8).take (readBE buf 4 4))),
      8 + padded_len (readBE buf 4 4)) := by
  unfold decode
  rw [dif_neg h8, if_neg (by simp [hst])]
  simp only [hty, Ty.fromU8]
  rw [dif_neg hpl]

theorem decode_biginteger_raw (buf : List Nat) (h8 : ¬ buf.length < 8)
    (hst : readBE buf 0 1 = 66) (hty : readBE buf 3 1 = 4)
    (hpl : ¬ buf.length < 8 + padded_len (readBE buf 4 4)) :
    decode buf = .ok (.mk (readBE buf 1 2) (.BigInteger ((buf.drop 8).take (readBE buf 4 4))),
      8 + padded_len (readBE buf 4 4)) := by
  unfold decode
  rw [dif_neg h8, if_neg (by simp [hst])]
  simp only [hty, Ty.fromU8]
  rw [dif_neg hpl]

theorem decode_consumed (buf : List Nat) (t : Ttlv) (n : Nat)
    (h : decode buf = .ok (t, n)) : n = 8 + padded_len (readBE buf 4 4) := by
  by_cases h8 : buf.length < 8
  · rw [decode_short buf h8] at h
    simp at h
  · by_cases hst : readBE buf 0 1 = 66
    · cases hty : Ty.fromU8 (readBE buf 3 1) with
      | none =>
        rw [decode_badtype buf h8 hst hty] at h
        simp at h
      | some ty =>
        by_cases hpl : buf.length < 8 + padded_len (readBE buf 4 4)
        · rw [decode_insufficient buf ty h8 hst hty hpl] at h
          simp at h
        · unfold decode at h
          simp only [hty] at h
          rw [dif_neg h8, if_neg (by simp [hst]), dif_neg hpl] at h
          cases ty <;> (try simp only [] at h) <;> (repeat' split at h) <;> simp_all
    · rw [decode_badstart buf h8 hst] at h
      simp at h

/-! ### Structure decoding: children scan stops at the first failure, never errors -/

theorem decodeChildren_no_err (body : List Nat) (k : Nat) (e : Error) :
    decodeChildren body k ≠ .err e := by
  unfold decodeChildren
  split
  · simp
  · cases hd : decode (body.drop k) with
    | err e2 => simp
    | ok pr =>
      obtain ⟨c, cLen⟩ := pr
      simp only []
      split
      · simp
      · cases hrec : decodeChildren body (k + cLen) with
        | ok pr2 =>
          obtain ⟨cs2, k2⟩ := pr2
          simp [hrec]
        | err e2 => exact (decodeChildren_no_err body (k + cLen) e2 hrec).elim
        | panic => simp [hrec]
        | diverge => simp [hrec]
    | panic => simp
    | diverge => simp
termination_by body.length + 1 - k
decreasing_by
  simp_wf
  omega

theorem decodeChildren_stops (body : List Nat) (k : Nat) (e : Error)
    (hk : ¬ body.length < k) (hd : decode (body.drop k) = .err e) :
    decodeChildren body k = .ok (.nil, k) := by
  unfold decodeChildren
  rw [dif_neg hk, hd]

theorem decodeChildren_step (body : List Nat) (k : Nat) (c : Ttlv) (cLen : Nat)
    (hk : ¬ body.length < k) (hd : decode (body.drop k) = .ok (c, cLen)) (hnz : cLen ≠ 0) :
    decodeChildren body k =
      (match decodeChildren body (k + cLen) with
       | .ok (cs, kEnd) => .ok (.cons c cs, kEnd)
       | r => r) := by
  conv_lhs => rw [decodeChildren]
  rw [dif_neg hk, hd]
  simp [hnz]

theorem decode_structure_ok (buf : List Nat) (cs : TtlvList) (k : Nat)
    (h8 : ¬ buf.length < 8) (hst : readBE buf 0 1 = 66) (hty : readBE buf 3 1 = 1)
    (hpl : ¬ buf.length < 8 + padded_len (readBE buf 4 4))
    (hdc : decodeChildren ((buf.take (8 + readBE buf 4 4)).drop 8) 0 = .ok (cs, k)) :
    decode buf = .ok (.mk (readBE buf 1 2) (.Structure cs),
      8 + padded_len (readBE buf 4 4)) := by
  unfold decode
  rw [dif_neg h8, if_neg (by simp [hst])]
  simp only [hty, Ty.fromU8]
  rw [dif_neg hpl, hdc]

/-! ### Path lookup -/

/-- The first child (in order) whose tag converts exactly to `t0`. -/
def firstMatchP {τ : Type} [DecidableEq τ] (fromPrim : Nat → Option τ) (t0 : τ) :
    TtlvList → Option Ttlv
  | .nil => none
  | .cons c cs =>
    if fromPrim c.tagOf = some t0 then some c else firstMatchP fromPrim t0 cs

/-- Every child tag scanned by `find` (up to and including the first match)
converts through the tag type. -/
def scanConverts {τ : Type} [DecidableEq τ] (fromPrim : Nat → Option τ) (t0 : τ) :
    TtlvList → Bool
  | .nil => true
  | .cons c cs =>
    match fromPrim c.tagOf with
    | none => false
    | some ct => if ct = t0 then true else scanConverts fromPrim t0 cs

theorem findTag_spec {τ : Type} [DecidableEq τ] (fp : Nat → Option τ) (t0 : τ) (tl : List τ) :
    ∀ (cs : TtlvList), scanConverts fp t0 cs = true →
      findTag fp (t0 :: tl) cs = .ok (firstMatchP fp t0 cs)
  | .nil, _ => rfl
  | .cons c cs, h => by
    simp only [scanConverts] at h
    cases hc : fp c.tagOf with
    | none => rw [hc] at h; simp at h
    | some ct =>
      rw [hc] at h
      simp only [] at h
      simp only [findTag, firstMatchP, hc]
      by_cases hct : ct = t0
      · subst hct
        simp
      · rw [if_neg hct] at h
        rw [if_neg hct, if_neg (show ¬ (some ct = some t0) from by simp [hct])]
        exact findTag_spec fp t0 tl cs h

theorem path_not_structure {τ : Type} [DecidableEq τ] (fp : Nat → Option τ) (tag : Nat)
    (v : Value) (tags : List τ) (hv : ∀ cs, v ≠ .Structure cs) :
    path fp (.mk tag v) tags = .err .TypeMismatch := by
  cases v with
  | Structure cs => exact absurd rfl (hv cs)
  | Integer x => simp [path, child_iter]
  | LongInteger x => simp [path, child_iter]
  | BigInteger x => simp [path, child_iter]
  | Enumeration x => simp [path, child_iter]
  | Boolean x => simp [path, child_iter]
  | TextString x => simp [path, child_iter]
  | ByteString x => simp [path, child_iter]
  | DateTime x => simp [path, child_iter]
  | Interval x => simp [path, child_iter]

theorem path_nomatch {τ : Type} [DecidableEq τ] (fp : Nat → Option τ) (tag : Nat)
    (cs : TtlvList) (t0 : τ) (tl : List τ) (hscan : scanConverts fp t0 cs = true)
    (hnone : firstMatchP fp t0 cs = none) :
    path fp (.mk tag (.Structure cs)) (t0 :: tl) = .err .ChildNotFound := by
  unfold path
  simp only [child_iter]
  rw [findTag_spec fp t0 tl cs hscan, hnone]

theorem path_found_single {τ : Type} [DecidableEq τ] (fp : Nat → Option τ) (tag : Nat)
    (cs : TtlvList) (t0 : τ) (c : Ttlv) (hscan : scanConverts fp t0 cs = true)
    (hsome : firstMatchP fp t0 cs = some c) :
    path fp (.mk tag (.Structure cs)) [t0] = .ok c := by
  unfold path
  simp only [child_iter]
  rw [findTag_spec fp t0 [] cs hscan, hsome]
  simp

theorem path_found_step {τ : Type} [DecidableEq τ] (fp : Nat → Option τ) (tag : Nat)
    (cs : TtlvList) (t0 t1 : τ) (tl : List τ) (c : Ttlv)
    (hscan : scanConverts fp t0 cs = true)
    (hsome : firstMatchP fp t0 cs = some c) :
    path fp (.mk tag (.Structure cs)) (t0 :: t1 :: tl) = path fp c (t1 :: tl) := by
  conv_lhs => unfold path
  simp only [child_iter]
  rw [findTag_spec fp t0 (t1 :: tl) cs hscan, hsome]
  simp only []
  rw [if_neg (by simp)]

/-! ### Encoding never succeeds on trees containing a BigInteger -/

mutual
/-- Does this node contain a `BigInteger` value anywhere? -/
def containsBigInt : Ttlv → Bool
  | .mk _ v => containsBigIntV v

def containsBigIntV : Value → Bool
  | .BigInteger _ => true
  | .Structure cs => containsBigIntL cs
  | _ => false

def containsBigIntL : TtlvList → Bool
  | .nil => false
  | .cons c cs => containsBigInt c || containsBigIntL cs
end

mutual
theorem encode_contains_big : ∀ (t : Ttlv) (buf p : List Nat) (n : Nat),
    containsBigInt t = true → encode t buf ≠ .ok (p, n)
  | .mk tag (.BigInteger b), buf, p, n, _ => by
    simp only [encode, encodeValue]
    split <;> simp
  | .mk tag (.Structure cs), buf, p, n, hc => by
    have hcl : containsBigIntL cs = true := by
      simpa [containsBigInt, containsBigIntV] using hc
    simp only [encode, encodeValue]
    intro h
    by_cases h16 : buf.length < 16
    · rw [if_pos h16] at h
      simp at h
    · rw [if_neg h16] at h
      rcases hec : encodeChildren cs (setBytes (setBytes buf 0 [66]) 1 (beBytes 2 tag)) 8 with
        _ | _ | e | pr
      · rw [hec] at h
        simp at h
      · rw [hec] at h
        simp at h
      · rw [hec] at h
        simp at h
      · obtain ⟨b2, cursor⟩ := pr
        exact encodeChildren_contains_big cs _ 8 _ _ hcl hec
  | .mk tag (.Integer x), buf, p, n, hc => by simp [containsBigInt, containsBigIntV] at hc
  | .mk tag (.LongInteger x), buf, p, n, hc => by simp [containsBigInt, containsBigIntV] at hc
  | .mk tag (.Enumeration x), buf, p, n, hc => by simp [containsBigInt, containsBigIntV] at hc
  | .mk tag (.Boolean x), buf, p, n, hc => by simp [containsBigInt, containsBigIntV] at hc
  | .mk tag (.TextString x), buf, p, n, hc => by simp [containsBigInt, containsBigIntV] at hc
  | .mk tag (.ByteString x), buf, p, n, hc => by simp [containsBigInt, containsBigIntV] at hc
  | .mk tag (.DateTime x), buf, p, n, hc => by simp [containsBigInt, containsBigIntV] at hc
  | .mk tag (.Interval x), buf, p, n, hc => by simp [containsBigInt, containsBigIntV] at hc

theorem encodeChildren_contains_big : ∀ (cs : TtlvList) (B : List Nat) (k : Nat)
    (b : List Nat) (cur : Nat), containsBigIntL cs = true →
    encodeChildren cs B k ≠ .ok (b, cur)
  | .nil, B, k, b, cur, hc => by simp [containsBigIntL] at hc
  | .cons c cs, B, k, b, cur, hc => by
    simp only [encodeChildren]
    intro h
    by_cases hk : k ≤ B.length
    · rw [if_pos hk] at h
      rcases hec : encode c (B.drop k) with _ | _ | e | pr
      · rw [hec] at h
        simp at h
      · rw [hec] at h
        simp at h
      · rw [hec] at h
        simp at h
      · obtain ⟨sub, nn⟩ := pr
        rw [hec] at h
        replace h : encodeChildren cs (List.take k B ++ sub) (k + nn) = .ok (b, cur) := h
        simp only [containsBigIntL, Bool.or_eq_true] at hc
        rcases hc with hc | hc
        · exact encode_contains_big c _ _ _ hc hec
        · exact encodeChildren_contains_big cs _ _ _ _ hc h
    · rw [if_neg hk] at h
      simp at h
end

/-! ### Encode failures on small buffers -/

theorem setBytes_length {buf data : List Nat} {off : Nat} (h : off + data.length ≤ buf.length) :
    (setBytes buf off data).length = buf.length := by
  simp [setBytes, List.length_take, List.length_drop]
  omega

theorem encode_buf_too_small (t : Ttlv) (buf : List Nat) (h : buf.length < 16) :
    encode t buf = .err .InsufficientBufferSize := by
  match t with
  | .mk tag v =>
    simp only [encode]
    rw [if_pos h]

theorem encode_text_too_small (tag : Nat) (s : List Nat) (buf : List Nat)
    (h16 : ¬ buf.length < 16) (hsm : buf.length < 8 + padded_len s.length) :
    encode (.mk tag (.TextString s)) buf = .err .InsufficientBufferSize := by
  have hl1 : (setBytes buf 0 [66]).length = buf.length := setBytes_length (by simp; omega)
  have hl2 : (setBytes (setBytes buf 0 [66]) 1 (beBytes 2 tag)).length = buf.length := by
    rw [setBytes_length, hl1]
    simp [hl1]
    omega
  simp only [encode, encodeValue, write_var]
  rw [if_neg h16, if_pos (by omega), if_pos (by simp [List.length_drop, hl2]; omega)]

theorem encode_byte_too_small (tag : Nat) (s : List Nat) (buf : List Nat)
    (h16 : ¬ buf.length < 16) (hsm : buf.length < 8 + padded_len s.length) :
    encode (.mk tag (.ByteString s)) buf = .err .InsufficientBufferSize := by
  have hl1 : (setBytes buf 0 [66]).length = buf.length := setBytes_length (by simp; omega)
  have hl2 : (setBytes (setBytes buf 0 [66]) 1 (beBytes 2 tag)).length = buf.length := by
    rw [setBytes_length, hl1]
    simp [hl1]
    omega
  simp only [encode, encodeValue, write_var]
  rw [if_neg h16, if_pos (by omega), if_pos (by simp [List.length_drop, hl2]; omega)]

theorem encode_biginteger_unsupported (tag : Nat) (b : List Nat) (buf : List Nat)
    (h16 : ¬ buf.length < 16) :
    encode (.mk tag (.BigInteger b)) buf = .err .UnsupportedType := by
  simp only [encode, encodeValue]
  rw [if_neg h16]

/-! ### Claims -/

/-- Claim C1 (counterexample): the round-trip claim fails as stated.  The empty
`Structure` node is wellformed and encodes to exactly 8 bytes, so an 8-byte
buffer is large enough to hold the encoding, yet `encode` fails with
`InsufficientBufferSize` because it requires at least 16 bytes of headroom at
every node. -/
theorem roundtrip_size_exact_buffer_fails :
    wf (Ttlv.mk 1 (Value.Structure .nil)) = true ∧
    sizeT (Ttlv.mk 1 (Value.Structure .nil)) = (List.replicate 8 (0 : Nat)).length ∧
    encode (Ttlv.mk 1 (Value.Structure .nil)) (List.replicate 8 (0 : Nat)) =
      .err .InsufficientBufferSize :=
  ⟨by rfl, by rfl, by rfl⟩

/-- Claim C1 (amended): for every wellformed node tree built from the 9
supported kinds whose declared lengths fit the 32-bit length fields, and every
buffer at least 8 bytes longer than the encoded size, `encode` succeeds,
writes the encoding in place returning its size, and `decode` of the resulting
buffer returns the structurally equal tree together with the same byte
count. -/
theorem roundtrip (t : Ttlv) (buf : List Nat) (h1 : wf t = true)
    (h2 : sizeT t + 8 ≤ buf.length) :
    encode t buf = .ok (encBytes t ++ buf.drop (sizeT t), sizeT t) ∧
    decode (encBytes t ++ buf.drop (sizeT t)) = .ok (t, sizeT t) :=
  ⟨encode_ok t buf h1 h2, decode_encBytes t (buf.drop (sizeT t)) h1⟩

/-- Witness for C1 at an `Integer` node and a 24-byte buffer. -/
theorem roundtrip_witness :
    wf (Ttlv.mk 1 (Value.Integer 6)) = true ∧
    sizeT (Ttlv.mk 1 (Value.Integer 6)) + 8 ≤ (List.replicate 24 (0 : Nat)).length ∧
    (encode (Ttlv.mk 1 (Value.Integer 6)) (List.replicate 24 (0 : Nat)) =
        .ok (encBytes (Ttlv.mk 1 (Value.Integer 6)) ++
          (List.replicate 24 (0 : Nat)).drop (sizeT (Ttlv.mk 1 (Value.Integer 6))),
          sizeT (Ttlv.mk 1 (Value.Integer 6))) ∧
      decode (encBytes (Ttlv.mk 1 (Value.Integer 6)) ++
          (List.replicate 24 (0 : Nat)).drop (sizeT (Ttlv.mk 1 (Value.Integer 6)))) =
        .ok (Ttlv.mk 1 (Value.Integer 6), sizeT (Ttlv.mk 1 (Value.Integer 6)))) :=
  ⟨by rfl, by decide, roundtrip (Ttlv.mk 1 (Value.Integer 6)) (List.replicate 24 0)
    (by rfl) (by decide)⟩

/-- Claim C2: `padded_len n` is `n` rounded up to the next multiple of 8
(`ceil(n/8)*8`); every successful encode writes `8 + padded_len(declared
length)` bytes, a multiple of 8; every successful decode consumes
`8 + padded_len` of the declared length read from the header. -/
theorem padding_invariant :
    (∀ n : Nat, padded_len n = 8 * ((n + 7) / 8) ∧ n ≤ padded_len n ∧
      padded_len n < n + 8 ∧ padded_len n % 8 = 0) ∧
    (∀ (t : Ttlv) (buf p : List Nat) (n : Nat), encode t buf = .ok (p, n) →
      n = 8 + padded_len (declLen t.valOf) ∧ n % 8 = 0) ∧
    (∀ (buf : List Nat) (t : Ttlv) (n : Nat), decode buf = .ok (t, n) →
      n = 8 + padded_len (readBE buf 4 4)) := by
  refine ⟨?_, ?_, fun buf t n h => decode_consumed buf t n h⟩
  · intro n
    refine ⟨?_, padded_len_ge n, padded_len_lt n, padded_len_mod n⟩
    unfold padded_len
    omega
  · intro t buf p n h
    have hs : n = sizeT t := encode_size t buf p n h
    have hm := padded_len_mod (declLen t.valOf)
    match t with
    | .mk tag v =>
      simp only [sizeT, Ttlv.valOf] at hs ⊢
      constructor
      · exact hs
      · simp only [Ttlv.valOf] at hm
        omega

/-- Witness for C2: the padding formula at 5, a successful encode of an
`Integer` node, and a successful decode of its 16-byte wire form. -/
theorem padding_invariant_witness :
    (padded_len 5 = 8 * ((5 + 7) / 8) ∧ 5 ≤ padded_len 5 ∧ padded_len 5 < 5 + 8 ∧
      padded_len 5 % 8 = 0) ∧
    (encode (Ttlv.mk 1 (Value.Integer 6)) (List.replicate 24 (0 : Nat)) =
        .ok (encBytes (Ttlv.mk 1 (Value.Integer 6)) ++ List.replicate 8 (0 : Nat), 16) ∧
      (16 = 8 + padded_len (declLen (Ttlv.mk 1 (Value.Integer 6)).valOf) ∧ 16 % 8 = 0)) ∧
    (decode [66, 0, 1, 2, 0, 0, 0, 4, 0, 0, 0, 6, 0, 0, 0, 0] =
        .ok (Ttlv.mk 1 (Value.Integer 6), 16) ∧
      16 = 8 + padded_len (readBE [66, 0, 1, 2, 0, 0, 0, 4, 0, 0, 0, 6, 0, 0, 0, 0] 4 4)) := by
  have henc : encode (Ttlv.mk 1 (Value.Integer 6)) (List.replicate 24 (0 : Nat)) =
      .ok (encBytes (Ttlv.mk 1 (Value.Integer 6)) ++ List.replicate 8 (0 : Nat), 16) := by rfl
  have hdec : decode [66, 0, 1, 2, 0, 0, 0, 4, 0, 0, 0, 6, 0, 0, 0, 0] =
      .ok (Ttlv.mk 1 (Value.Integer 6), 16) := by
    simp [decode, creadO, readBE, Ty.fromU8, padded_len, toSigned]
  exact ⟨padding_invariant.1 5,
    ⟨henc, padding_invariant.2.1 _ _ _ _ henc⟩,
    ⟨hdec, padding_invariant.2.2 _ _ _ hdec⟩⟩

/-- Claim C3: decode is claimed total, but on the 8-byte input with type code
`Integer` and declared length 0 the header checks pass (padded length 0) and
the unconditional 4-byte `cread_with` at offset 8 violates its bounds
assertion: the code aborts instead of returning a typed error.  Likewise for
`Boolean` (an 8-byte read). -/
theorem decode_fixed_width_len0_panics :
    decode [66, 0, 0, 2, 0, 0, 0, 0] = .panic ∧
    decode [66, 0, 0, 6, 0, 0, 0, 0] = .panic := by
  constructor <;> simp [decode, creadO, readBE, Ty.fromU8, padded_len]

/-- Claim C4: the decode error contract, in the source's check order: fewer
than 8 bytes or a padded declared length exceeding the buffer give
`InsufficientBufferSize`; a first byte other than `0x42` gives
`MissingStartByte`; a type code outside `1..10` gives `UnsupportedType`; an
invalid-UTF-8 `TextString` payload gives `CorruptUtf8`, while `ByteString`
and `BigInteger` payloads are returned unvalidated. -/
theorem decode_error_contract :
    (∀ buf : List Nat, buf.length < 8 → decode buf = .err .InsufficientBufferSize) ∧
    (∀ buf : List Nat, ¬ buf.length < 8 → readBE buf 0 1 ≠ 0x42 →
      decode buf = .err .MissingStartByte) ∧
    (∀ buf : List Nat, ¬ buf.length < 8 → readBE buf 0 1 = 0x42 →
      (readBE buf 3 1 < 1 ∨ 10 < readBE buf 3 1) → decode buf = .err .UnsupportedType) ∧
    (∀ (buf : List Nat) (ty : Ty), ¬ buf.length < 8 → readBE buf 0 1 = 0x42 →
      Ty.fromU8 (readBE buf 3 1) = some ty →
      buf.length < 8 + padded_len (readBE buf 4 4) →
      decode buf = .err .InsufficientBufferSize) ∧
    (∀ buf : List Nat, ¬ buf.length < 8 → readBE buf 0 1 = 0x42 → readBE buf 3 1 = 7 →
      ¬ buf.length < 8 + padded_len (readBE buf 4 4) →
      validUtf8 ((buf.drop 8).take (readBE buf 4 4)) = false →
      decode buf = .err .CorruptUtf8) ∧
    (∀ buf : List Nat, ¬ buf.length < 8 → readBE buf 0 1 = 0x42 → readBE buf 3 1 = 8 →
      ¬ buf.length < 8 + padded_len (readBE buf 4 4) →
      decode buf = .ok (.mk (readBE buf 1 2)
        (.ByteString ((buf.drop 8).take (readBE buf 4 4))),
        8 + padded_len (readBE buf 4 4))) ∧
    (∀ buf : List Nat, ¬ buf.length < 8 → readBE buf 0 1 = 0x42 → readBE buf 3 1 = 4 →
      ¬ buf.length < 8 + padded_len (readBE buf 4 4) →
      decode buf = .ok (.mk (readBE buf 1 2)
        (.BigInteger ((buf.drop 8).take (readBE buf 4 4))),
        8 + padded_len (readBE buf 4 4))) := by
  refine ⟨decode_short, decode_badstart, ?_, decode_insufficient,
    decode_text_corrupt, decode_bytestring_raw, decode_biginteger_raw⟩
  intro buf h8 hst hcode
  exact decode_badtype buf h8 hst ((fromU8_none_iff _).mpr hcode)

/-- Witness for C4: each error arm (and the two unvalidated arms) exercised on
a concrete buffer. -/
theorem decode_error_contract_witness :
    decode [0, 0, 0] = .err .InsufficientBufferSize ∧
    decode [1, 0, 0, 0, 0, 0, 0, 0] = .err .MissingStartByte ∧
    decode [66, 0, 0, 99, 0, 0, 0, 0] = .err .UnsupportedType ∧
    decode [66, 0, 0, 2, 0, 0, 0, 9] = .err .InsufficientBufferSize ∧
    decode [66, 0, 0, 7, 0, 0, 0, 1, 255, 0, 0, 0, 0, 0, 0, 0] = .err .CorruptUtf8 ∧
    decode [66, 0, 5, 8, 0, 0, 0, 1, 255, 0, 0, 0, 0, 0, 0, 0] =
      .ok (.mk 5 (.ByteString [255]), 16) ∧
    decode [66, 0, 5, 4, 0, 0, 0, 1, 255, 0, 0, 0, 0, 0, 0, 0] =
      .ok (.mk 5 (.BigInteger [255]), 16) := by
  refine ⟨decode_error_contract.1 _ (by decide),
    decode_error_contract.2.1 _ (by decide) (by decide),
    decode_error_contract.2.2.1 _ (by decide) (by decide) (by decide),
    decode_error_contract.2.2.2.1 _ Ty.Integer (by decide) (by decide) (by decide) (by decide),
    decode_error_contract.2.2.2.2.1 _ (by decide) (by decide) (by decide) (by decide) (by decide),
    ?_, ?_⟩
  · have h := decode_error_contract.2.2.2.2.2.1 [66, 0, 5, 8, 0, 0, 0, 1,
      255, 0, 0, 0, 0, 0, 0, 0] (by decide) (by decide) (by decide) (by decide)
    simpa [readBE, padded_len] using h
  · have h := decode_error_contract.2.2.2.2.2.2 [66, 0, 5, 4, 0, 0, 0, 1,
      255, 0, 0, 0, 0, 0, 0, 0] (by decide) (by decide) (by decide) (by decide)
    simpa [readBE, padded_len] using h

/-- Claim C5 (counterexample): the claim says every buffer passing the
Structure header checks decodes successfully with a truncated child list, but
a nested malformed fixed-width child makes the recursive decode abort, and the
abort propagates: this 16-byte buffer has a valid Structure header (declared
length 8) whose child region is the C3 aborting input. -/
theorem structure_truncation_counterexample :
    readBE [66, 0, 0, 1, 0, 0, 0, 8, 66, 0, 0, 2, 0, 0, 0, 0] 0 1 = 0x42 ∧
    readBE [66, 0, 0, 1, 0, 0, 0, 8, 66, 0, 0, 2, 0, 0, 0, 0] 3 1 = 1 ∧
    ¬ (([66, 0, 0, 1, 0, 0, 0, 8, 66, 0, 0, 2, 0, 0, 0, 0] : List Nat).length <
      8 + padded_len (readBE [66, 0, 0, 1, 0, 0, 0, 8, 66, 0, 0, 2, 0, 0, 0, 0] 4 4)) ∧
    decode [66, 0, 0, 1, 0, 0, 0, 8, 66, 0, 0, 2, 0, 0, 0, 0] = .panic := by
  refine ⟨by decide, by decide, by decide, ?_⟩
  simp [decode, decodeChildren, creadO, readBE, Ty.fromU8, padded_len]

/-- Claim C5 (amended): the Structure child scan never raises an error of its
own: it stops, returning the children decoded so far, at the first recursive
decode that returns a typed error; each step consumes the child's reported
size from the region `[cursor, 8 + declared_length)`; and whenever the scan
completes (no recursive decode aborts or diverges), the Structure decode
succeeds with the (possibly truncated) child list. -/
theorem structure_truncation :
    (∀ (body : List Nat) (k : Nat) (e : Error), decodeChildren body k ≠ .err e) ∧
    (∀ (body : List Nat) (k : Nat) (e : Error), ¬ body.length < k →
      decode (body.drop k) = .err e → decodeChildren body k = .ok (.nil, k)) ∧
    (∀ (body : List Nat) (k : Nat) (c : Ttlv) (cLen : Nat), ¬ body.length < k →
      decode (body.drop k) = .ok (c, cLen) → cLen ≠ 0 →
      decodeChildren body k =
        (match decodeChildren body (k + cLen) with
         | .ok (cs, kEnd) => .ok (.cons c cs, kEnd)
         | r => r)) ∧
    (∀ (buf : List Nat) (cs : TtlvList) (k : Nat), ¬ buf.length < 8 →
      readBE buf 0 1 = 0x42 → readBE buf 3 1 = 1 →
      ¬ buf.length < 8 + padded_len (readBE buf 4 4) →
      decodeChildren ((buf.take (8 + readBE buf 4 4)).drop 8) 0 = .ok (cs, k) →
      decode buf = .ok (.mk (readBE buf 1 2) (.Structure cs),
        8 + padded_len (readBE buf 4 4))) :=
  ⟨decodeChildren_no_err, decodeChildren_stops, decodeChildren_step, decode_structure_ok⟩

/-- Witness for C5: the scan stops without error on a garbage region, and a
Structure whose child region fails to decode still decodes to an empty child
list. -/
theorem structure_truncation_witness :
    decodeChildren [1, 2, 3] 0 ≠ .err .InsufficientBufferSize ∧
    (¬ ([1, 2, 3] : List Nat).length < 0) ∧
    decode (([1, 2, 3] : List Nat).drop 0) = .err .InsufficientBufferSize ∧
    decodeChildren [1, 2, 3] 0 = .ok (.nil, 0) ∧
    decode [66, 0, 5, 1, 0, 0, 0, 8, 1, 2, 3, 4, 5, 6, 7, 8] =
      .ok (.mk 5 (.Structure .nil), 16) := by
  have hd : decode (([1, 2, 3] : List Nat).drop 0) = .err .InsufficientBufferSize := by
    simp [decode]
  have hstop := structure_truncation.2.1 [1, 2, 3] 0 .InsufficientBufferSize
    (by decide) hd
  have hdc : decodeChildren (([66, 0, 5, 1, 0, 0, 0, 8, 1, 2, 3, 4, 5, 6, 7, 8] :
      List Nat).take (8 + readBE [66, 0, 5, 1, 0, 0, 0, 8, 1, 2, 3, 4, 5, 6, 7, 8] 4 4)
      |>.drop 8) 0 = .ok (.nil, 0) := by
    simp [readBE]
    exact structure_truncation.2.1 _ 0 .MissingStartByte (by decide) (by simp [decode, readBE])
  have hok := structure_truncation.2.2.2 [66, 0, 5, 1, 0, 0, 0, 8, 1, 2, 3, 4, 5, 6, 7, 8]
    .nil 0 (by decide) (by decide) (by decide) (by decide) hdc
  refine ⟨structure_truncation.1 [1, 2, 3] 0 .InsufficientBufferSize, by decide, hd, hstop, ?_⟩
  simpa [readBE, padded_len] using hok

/-- Claim C6 (counterexample): for the wire value 99, which corresponds to no
variant of the test's tag enumeration, the blanket `Tag::from_u16`
(`FromPrimitive::from_u16(n).expect(..)`) aborts instead of returning an
error result. -/
theorem tag_from_u16_counterexample :
    TestTag.fromPrim 99 = none ∧ tagFromU16 TestTag.fromPrim 99 = .panic :=
  ⟨rfl, rfl⟩

/-- Claim C6 (amended): the from-wire direction of the blanket `Tag`
implementation returns the variant whenever the numeric conversion knows the
value, and aborts the program (via `.expect`) — rather than returning a
result — whenever it does not. -/
theorem tag_from_u16_behavior {τ : Type} (fromPrim : Nat → Option τ) (n : Nat) :
    (∀ t : τ, fromPrim n = some t → tagFromU16 fromPrim n = .ok t) ∧
    (fromPrim n = none → tagFromU16 fromPrim n = .panic) := by
  constructor
  · intro t h
    simp [tagFromU16, h]
  · intro h
    simp [tagFromU16, h]

/-- Witness for C6 on the test tag enumeration: 2 converts, 7 aborts. -/
theorem tag_from_u16_behavior_witness :
    (TestTag.fromPrim 2 = some TestTag.ProtocolVersion ∧
      tagFromU16 TestTag.fromPrim 2 = .ok TestTag.ProtocolVersion) ∧
    (TestTag.fromPrim 7 = none ∧ tagFromU16 TestTag.fromPrim 7 = .panic) :=
  ⟨⟨rfl, (tag_from_u16_behavior TestTag.fromPrim 2).1 TestTag.ProtocolVersion rfl⟩,
    ⟨rfl, (tag_from_u16_behavior TestTag.fromPrim 7).2 rfl⟩⟩

/-- Claim C7 (counterexample): the claim says `path` fails with
`ChildNotFound` when no child matches, but scanning a child whose raw tag (9)
converts to no variant of the tag type aborts inside the comparison closure
before the scan can finish. -/
theorem path_convert_abort_counterexample :
    TestTag.fromPrim 9 = none ∧
    path TestTag.fromPrim
      (Ttlv.mk 0 (Value.Structure (.cons (Ttlv.mk 9 (Value.Integer 1)) .nil)))
      [TestTag.Request] = .panic := by
  refine ⟨rfl, ?_⟩
  conv_lhs => unfold path
  simp [child_iter, findTag, Ttlv.tagOf, TestTag.fromPrim]

/-- Claim C7 (amended): `path` on a non-empty tag sequence fails with
`TypeMismatch` when the current node is not a Structure; and provided every
child tag scanned before the first match converts into the tag type, it fails
with `ChildNotFound` when no child matches the head segment, returns the
first matching child on a single-segment path (duplicates return the first
match only), and recurses into the first matching child on a longer path. -/
theorem path_contract {τ : Type} [DecidableEq τ] (fp : Nat → Option τ) :
    (∀ (tag : Nat) (v : Value) (tags : List τ), (∀ cs, v ≠ .Structure cs) →
      path fp (.mk tag v) tags = .err .TypeMismatch) ∧
    (∀ (tag : Nat) (cs : TtlvList) (t0 : τ) (tl : List τ),
      scanConverts fp t0 cs = true → firstMatchP fp t0 cs = none →
      path fp (.mk tag (.Structure cs)) (t0 :: tl) = .err .ChildNotFound) ∧
    (∀ (tag : Nat) (cs : TtlvList) (t0 : τ) (c : Ttlv),
      scanConverts fp t0 cs = true → firstMatchP fp t0 cs = some c →
      path fp (.mk tag (.Structure cs)) [t0] = .ok c) ∧
    (∀ (tag : Nat) (cs : TtlvList) (t0 t1 : τ) (tl : List τ) (c : Ttlv),
      scanConverts fp t0 cs = true → firstMatchP fp t0 cs = some c →
      path fp (.mk tag (.Structure cs)) (t0 :: t1 :: tl) = path fp c (t1 :: tl)) :=
  ⟨path_not_structure fp, path_nomatch fp, path_found_single fp, path_found_step fp⟩

/-- Witness for C7: a non-Structure node mismatches; an empty Structure has no
match; duplicated `RequestHeader` children return the first; a two-segment
path steps into the first match. -/
theorem path_contract_witness :
    path TestTag.fromPrim (Ttlv.mk 0 (Value.Integer 5)) [TestTag.Request] =
      .err .TypeMismatch ∧
    path TestTag.fromPrim (Ttlv.mk 0 (Value.Structure .nil)) [TestTag.Request] =
      .err .ChildNotFound ∧
    path TestTag.fromPrim
      (Ttlv.mk 0 (Value.Structure (.cons (Ttlv.mk 1 (Value.Integer 7))
        (.cons (Ttlv.mk 1 (Value.Integer 8)) .nil))))
      [TestTag.RequestHeader] = .ok (Ttlv.mk 1 (Value.Integer 7)) ∧
    path TestTag.fromPrim
      (Ttlv.mk 0 (Value.Structure (.cons
        (Ttlv.mk 1 (Value.Structure (.cons (Ttlv.mk 2 (Value.Integer 6)) .nil))) .nil)))
      [TestTag.RequestHeader, TestTag.ProtocolVersion] =
      path TestTag.fromPrim
        (Ttlv.mk 1 (Value.Structure (.cons (Ttlv.mk 2 (Value.Integer 6)) .nil)))
        [TestTag.ProtocolVersion] :=
  ⟨(path_contract TestTag.fromPrim).1 0 (Value.Integer 5) [TestTag.Request]
      (fun cs => by simp),
    (path_contract TestTag.fromPrim).2.1 0 .nil TestTag.Request [] (by rfl) (by rfl),
    (path_contract TestTag.fromPrim).2.2.1 0 _ TestTag.RequestHeader
      (Ttlv.mk 1 (Value.Integer 7)) (by rfl) (by rfl),
    (path_contract TestTag.fromPrim).2.2.2 0 _ TestTag.RequestHeader
      TestTag.ProtocolVersion []
      (Ttlv.mk 1 (Value.Structure (.cons (Ttlv.mk 2 (Value.Integer 6)) .nil)))
      (by rfl) (by rfl)⟩

/-- Claim C8: encode fails with `InsufficientBufferSize` on any buffer of
fewer than 16 bytes (in particular a 4-byte buffer); a variable-length
payload that does not fit the remaining padded region fails the same way
during the write; a `BigInteger` node whose encode call is reached with an
adequate buffer fails with `UnsupportedType`; and no tree containing a
`BigInteger` anywhere ever encodes successfully. -/
theorem encode_error_contract :
    (∀ (t : Ttlv) (buf : List Nat), buf.length < 16 →
      encode t buf = .err .InsufficientBufferSize) ∧
    (∀ (t : Ttlv) (buf : List Nat), buf.length = 4 →
      encode t buf = .err .InsufficientBufferSize) ∧
    (∀ (tag : Nat) (s : List Nat) (buf : List Nat), ¬ buf.length < 16 →
      buf.length < 8 + padded_len s.length →
      encode (.mk tag (.TextString s)) buf = .err .InsufficientBufferSize) ∧
    (∀ (tag : Nat) (s : List Nat) (buf : List Nat), ¬ buf.length < 16 →
      buf.length < 8 + padded_len s.length →
      encode (.mk tag (.ByteString s)) buf = .err .InsufficientBufferSize) ∧
    (∀ (tag : Nat) (b : List Nat) (buf : List Nat), ¬ buf.length < 16 →
      encode (.mk tag (.BigInteger b)) buf = .err .UnsupportedType) ∧
    (∀ (t : Ttlv) (buf p : List Nat) (n : Nat), containsBigInt t = true →
      encode t buf ≠ .ok (p, n)) :=
  ⟨encode_buf_too_small, fun t buf h => encode_buf_too_small t buf (by omega),
    encode_text_too_small, encode_byte_too_small, encode_biginteger_unsupported,
    encode_contains_big⟩

/-- Witness for C8: concrete small-buffer, unfitting-payload, and BigInteger
failures. -/
theorem encode_error_contract_witness :
    encode (Ttlv.mk 1 (Value.Integer 6)) (List.replicate 4 (0 : Nat)) =
      .err .InsufficientBufferSize ∧
    encode (Ttlv.mk 0 (Value.TextString (List.replicate 9 65)))
      (List.replicate 16 (0 : Nat)) = .err .InsufficientBufferSize ∧
    encode (Ttlv.mk 0 (Value.BigInteger [1])) (List.replicate 16 (0 : Nat)) =
      .err .UnsupportedType ∧
    containsBigInt (Ttlv.mk 0 (Value.Structure
      (.cons (Ttlv.mk 1 (Value.BigInteger [1])) .nil))) = true ∧
    encode (Ttlv.mk 0 (Value.Structure (.cons (Ttlv.mk 1 (Value.BigInteger [1])) .nil)))
      (List.replicate 100 (0 : Nat)) ≠ .ok ([], 0) :=
  ⟨encode_error_contract.2.1 _ _ (by decide),
    encode_error_contract.2.2.1 0 _ _ (by decide) (by decide),
    encode_error_contract.2.2.2.2.1 0 [1] _ (by decide),
    by rfl,
    encode_error_contract.2.2.2.2.2 _ _ [] 0 (by rfl)⟩

/-- Claim C9: typed extraction returns the payload exactly when the value's
kind matches the requested native type (`Integer` for i32, `LongInteger` for
i64, `Enumeration` for u32, `Boolean` for bool, `TextString` for text,
`ByteString` for bytes) and fails with `TypeMismatch` otherwise; in
particular there is no widening from `Integer` to i64 and no text view of a
`ByteString`. -/
theorem typed_extraction :
    (∀ (tag : Nat) (v : Value) (x : Int),
      valueGet tryFromI32 (.mk tag v) = .ok x ↔ v = .Integer x) ∧
    (∀ (tag : Nat) (v : Value) (x : Int),
      valueGet tryFromI64 (.mk tag v) = .ok x ↔ v = .LongInteger x) ∧
    (∀ (tag : Nat) (v : Value) (x : Nat),
      valueGet tryFromU32 (.mk tag v) = .ok x ↔ v = .Enumeration x) ∧
    (∀ (tag : Nat) (v : Value) (x : Bool),
      valueGet tryFromBool (.mk tag v) = .ok x ↔ v = .Boolean x) ∧
    (∀ (tag : Nat) (v : Value) (s : List Nat),
      valueGet tryFromStr (.mk tag v) = .ok s ↔ v = .TextString s) ∧
    (∀ (tag : Nat) (v : Value) (s : List Nat),
      valueGet tryFromBytes (.mk tag v) = .ok s ↔ v = .ByteString s) ∧
    (∀ (tag : Nat) (v : Value), (∀ x : Int, v ≠ .Integer x) →
      valueGet tryFromI32 (.mk tag v) = .err .TypeMismatch) ∧
    (∀ (tag : Nat) (v : Value), (∀ x : Int, v ≠ .LongInteger x) →
      valueGet tryFromI64 (.mk tag v) = .err .TypeMismatch) ∧
    (∀ (tag : Nat) (v : Value), (∀ x : Nat, v ≠ .Enumeration x) →
      valueGet tryFromU32 (.mk tag v) = .err .TypeMismatch) ∧
    (∀ (tag : Nat) (v : Value), (∀ x : Bool, v ≠ .Boolean x) →
      valueGet tryFromBool (.mk tag v) = .err .TypeMismatch) ∧
    (∀ (tag : Nat) (v : Value), (∀ s : List Nat, v ≠ .TextString s) →
      valueGet tryFromStr (.mk tag v) = .err .TypeMismatch) ∧
    (∀ (tag : Nat) (v : Value), (∀ s : List Nat, v ≠ .ByteString s) →
      valueGet tryFromBytes (.mk tag v) = .err .TypeMismatch) ∧
    (∀ (tag : Nat) (x : Int),
      valueGet tryFromI64 (.mk tag (.Integer x)) = .err .TypeMismatch) ∧
    (∀ (tag : Nat) (s : List Nat),
      valueGet tryFromStr (.mk tag (.ByteString s)) = .err .TypeMismatch) := by
  refine ⟨?_, ?_, ?_, ?_, ?_, ?_, ?_, ?_, ?_, ?_, ?_, ?_, ?_, ?_⟩ <;>
    intro tag v
  case _ => cases v <;> simp [valueGet, tryFromI32, Ttlv.valOf]
  case _ => cases v <;> simp [valueGet, tryFromI64, Ttlv.valOf]
  case _ => cases v <;> simp [valueGet, tryFromU32, Ttlv.valOf]
  case _ => cases v <;> simp [valueGet, tryFromBool, Ttlv.valOf]
  case _ => cases v <;> simp [valueGet, tryFromStr, Ttlv.valOf]
  case _ => cases v <;> simp [valueGet, tryFromBytes, Ttlv.valOf]
  case _ => cases v <;> simp [valueGet, tryFromI32, Ttlv.valOf]
  case _ => cases v <;> simp [valueGet, tryFromI64, Ttlv.valOf]
  case _ => cases v <;> simp [valueGet, tryFromU32, Ttlv.valOf]
  case _ => cases v <;> simp [valueGet, tryFromBool, Ttlv.valOf]
  case _ => cases v <;> simp [valueGet, tryFromStr, Ttlv.valOf]
  case _ => cases v <;> simp [valueGet, tryFromBytes, Ttlv.valOf]
  case _ => simp [valueGet, tryFromI64, Ttlv.valOf]
  case _ => simp [valueGet, tryFromStr, Ttlv.valOf]

/-- Witness for C9: extraction succeeds on the matching kind and the
no-widening examples fail on concrete values. -/
theorem typed_extraction_witness :
    (valueGet tryFromI32 (.mk 0 (.Integer 6)) = .ok 6 ↔
      Value.Integer 6 = Value.Integer 6) ∧
    ((∀ x : Int, Value.Boolean true ≠ .Integer x) ∧
      valueGet tryFromI32 (.mk 0 (.Boolean true)) = .err .TypeMismatch) ∧
    valueGet tryFromI64 (.mk 0 (.Integer 6)) = .err .TypeMismatch ∧
    valueGet tryFromStr (.mk 0 (.ByteString [1, 2])) = .err .TypeMismatch :=
  ⟨typed_extraction.1 0 (.Integer 6) 6,
    ⟨fun x => by simp, typed_extraction.2.2.2.2.2.2.1 0 (.Boolean true) (fun x => by simp)⟩,
    typed_extraction.2.2.2.2.2.2.2.2.2.2.2.2.1 0 6,
    typed_extraction.2.2.2.2.2.2.2.2.2.2.2.2.2 0 [1, 2]⟩

/-- Claim C10: `parse_ttlv_len` is claimed to read the 4-byte length field as
an unsigned 32-bit big-endian integer, matching the decoder (which uses u32),
but the code reads an **i32** and sign-extends it through `as usize`: on the
field `80 00 00 00` (value `2^31`) it returns `padded_len (2^64 - 2^31)`
instead of `padded_len (2^31) = 2^31`. -/
theorem parse_ttlv_len_sign_bug :
    readBE [128, 0, 0, 0] 0 4 = 2147483648 ∧
    padded_len 2147483648 = 2147483648 ∧
    parse_ttlv_len [128, 0, 0, 0] = .ok 18446744071562067968 ∧
    (18446744071562067968 : Nat) ≠ 2147483648 := by
  refine ⟨by decide, by decide, ?_, by decide⟩
  rfl

end TTLV
